import Mathlib

/-!
Verification development for the GraphStore-backed Kythe cross-reference
service (`kythe/go/storage/xrefs/xrefs.go`).  The store, the four queries
(Nodes, Edges, Decorations, CrossReferences) and the reverse-edge bootstrap
are shallowly embedded below.  Helper packages of the repository that are not
part of the source under scrutiny (edge-kind helpers, ticket URIs, the
Normalizer, the filter compiler, text decoding) are modelled from the
specification and carry doc comments saying so.
-/

namespace KytheXrefs

/-- An entry of the graph store (`spb.Entry`): `(source, edgeKind, factName,
factValue, target)`.  VNames and fact values are modelled as strings. -/
structure Entry where
  source : String
  edgeKind : String
  factName : String
  factValue : String
  target : String
  deriving DecidableEq, Repr

/-- The graph store, modelled as the list of its entries in scan order. -/
abbrev Store := List Entry

/-- `graphstore.IsEdge`: an entry is an edge iff its edge kind is non-empty. -/
def IsEdge (e : Entry) : Bool := e.edgeKind ≠ ""

/-! ### Character-list utilities (used to keep every definition kernel-evaluable) -/

/-- `charsStart p s` is true iff the character list `p` starts the list `s`. -/
def charsStart : List Char → List Char → Bool
  | [], _ => true
  | _ :: _, [] => false
  | p :: ps, c :: cs => p = c && charsStart ps cs

/-- Numeric value of a list of decimal digits. -/
def digitsToNat (cs : List Char) : Nat :=
  cs.foldl (fun n c => n * 10 + (c.toNat - 48)) 0

/-- `strconv.Atoi` on a 64-bit platform: an optional sign followed by one or
more decimal digits; a value outside `[-2^63, 2^63 - 1]` fails with
`ErrRange` (so such a fact value is unparseable and its anchor is skipped). -/
def goAtoi (s : String) : Option Int :=
  match s.data with
  | [] => none
  | '-' :: rest =>
    if rest ≠ [] && rest.all Char.isDigit && digitsToNat rest ≤ 2 ^ 63 then
      some (-(digitsToNat rest : Int))
    else none
  | '+' :: rest =>
    if rest ≠ [] && rest.all Char.isDigit && digitsToNat rest ≤ 2 ^ 63 - 1 then
      some ((digitsToNat rest : Int))
    else none
  | cs =>
    if cs.all Char.isDigit && digitsToNat cs ≤ 2 ^ 63 - 1 then
      some ((digitsToNat cs : Int))
    else none

/-- Go's `int32(x)` conversion of an `int`: two's-complement truncation to 32
bits (the source applies it to anchor offsets before handing them to
`InSpanBounds` and the normalizer). -/
def wrapInt32 (x : Int) : Int := (x + 2 ^ 31) % 2 ^ 32 - 2 ^ 31

/-- Go slice expression `s[i:j]`, total model: returns the slice when
`0 ≤ i ≤ j ≤ len s` and `""` otherwise.  Go panics outside those bounds:
every positive theorem below only invokes it in bounds, and the C8
counterexample deliberately evaluates the one reachable out-of-bounds use
(the inverted line-snippet slice), where `""` here stands for a Go panic. -/
def strSlice (s : String) (i j : Int) : String :=
  if 0 ≤ i ∧ i ≤ j ∧ j ≤ (s.data.length : Int) then
    String.mk ((s.data.drop i.toNat).take (j - i).toNat)
  else ""

/-! ### Association-list helpers (Go maps, with insertion order kept) -/

/-- Lookup in an association list (Go map read). -/
def lookupA {α : Type} : List (String × α) → String → Option α
  | [], _ => none
  | (k, v) :: rest, k' => if k = k' then some v else lookupA rest k'

/-- Insert-or-replace in an association list (Go map write). -/
def upsertA {α : Type} : List (String × α) → String → α → List (String × α)
  | [], k, v => [(k, v)]
  | (k', v') :: rest, k, v =>
    if k' = k then (k, v) :: rest else (k', v') :: upsertA rest k v

/-- Insert-with-default-and-update in an association list. -/
def updateA {α : Type} : List (String × α) → String → α → (α → α) → List (String × α)
  | [], k, d, f => [(k, f d)]
  | (k', v') :: rest, k, d, f =>
    if k' = k then (k, f v') :: rest else (k', v') :: updateA rest k d f

/-- Add a string to a deduplicated string list (`stringset.Add`). -/
def insertStr (l : List String) (x : String) : List String :=
  if x ∈ l then l else l ++ [x]

/-- Remove a string from a string list (`stringset.Discard`). -/
def removeStr (l : List String) (x : String) : List String :=
  l.filter (fun y => y ≠ x)

/-! ### Edge-kind helpers

Modelled from the spec (§6 edge-kind grammar): an edge kind is `base[.ordinal]`
where the base may start with a reverse marker; `mirror` toggles the marker and
`canonical` strips the ordinal and the marker. -/

/-- Modelled from the spec: the marker prefixing reverse edge kinds. -/
def revMarker : Char := '%'

/-- Modelled from the spec: an edge kind is reverse iff it carries the marker. -/
def isReverseKind (k : String) : Bool :=
  match k.data with
  | [] => false
  | c :: _ => c = revMarker

/-- Modelled from the spec: forward is the absence of the reverse marker. -/
def isForwardKind (k : String) : Bool := !isReverseKind k

/-- Modelled from the spec: `mirror` toggles the direction marker. -/
def mirrorKind (k : String) : String :=
  if isReverseKind k then String.mk (k.data.drop 1) else String.mk (revMarker :: k.data)

/-- Split a character list at its last `'.'`, returning the parts before and
after it, or `none` when no `'.'` occurs. -/
def splitLastDot : List Char → Option (List Char × List Char)
  | [] => none
  | c :: cs =>
    match splitLastDot cs with
    | some (b, a) => some (c :: b, a)
    | none => if c = '.' then some ([], cs) else none

/-- Modelled from the spec (§6): `parseOrdinal "base.7" = ("base", 7, true)`
and `parseOrdinal "base" = ("base", 0, false)`; a non-numeric suffix is not an
ordinal. -/
def parseOrdinal (k : String) : String × Int × Bool :=
  match splitLastDot k.data with
  | none => (k, 0, false)
  | some (b, a) =>
    if a ≠ [] && a.all Char.isDigit then (String.mk b, (digitsToNat a : Int), true)
    else (k, 0, false)

/-- Modelled from the spec: the canonical forward form of an edge kind (ordinal
and reverse marker removed). -/
def canonicalKind (k : String) : String :=
  let base := (parseOrdinal k).1
  if isReverseKind base then String.mk (base.data.drop 1) else base

/-! ### Schema constants

The fact names below are translated from the repository's `facts` package
(part of the source); the edge-kind strings are modelled from the spec. -/

def factAnchorEnd : String := "/kythe/loc/end"
def factAnchorStart : String := "/kythe/loc/start"
def factNodeKind : String := "/kythe/node/kind"
def factSnippetEnd : String := "/kythe/snippet/end"
def factSnippetStart : String := "/kythe/snippet/start"
def factText : String := "/kythe/text"
def factTextEncoding : String := "/kythe/text/encoding"

/-- `facts.DefaultTextEncoding`: the documented implicit value for
`text/encoding` when it is empty or missing from a node with a `text` fact. -/
def defaultTextEncoding : String := "UTF-8"

/-- Modelled from the spec: `nodes.Anchor`. -/
def nodeKindAnchor : String := "anchor"

/-- Modelled from the spec: schema edge-kind constants. -/
def edgeChildOf : String := "/kythe/edge/childof"
def edgeDefines : String := "/kythe/edge/defines"
def edgeDefinesBinding : String := "/kythe/edge/defines/binding"
def edgeRef : String := "/kythe/edge/ref"
def edgeRefCall : String := "/kythe/edge/ref/call"
def edgeDocuments : String := "/kythe/edge/documents"

/-- `revChildOfEdgeKind = edges.Mirror(edges.ChildOf)`. -/
def revChildOfEdgeKind : String := mirrorKind edgeChildOf

/-- Modelled from the spec: `k` is the kind `base` or a subkind `base/...`. -/
def isVariantKind (k base : String) : Bool :=
  k = base || charsStart (base.data ++ ['/']) k.data

/-- Modelled from the spec: the edge kinds associated with anchors. -/
def isAnchorEdgeKind (k : String) : Bool :=
  let c := canonicalKind k
  c = edgeDefinesBinding || c = edgeDefines || c = edgeDocuments ||
    c = edgeRef || c = edgeRefCall || c = edgeChildOf

/-! ### Fact-name filters

Modelled from the spec (§4.2): each filter glob is compiled to a matcher whose
alphabet is `*` (any run of non-slash characters) and `?` (any single
non-slash character), all other characters literal; `matchesAny` is true iff
some pattern fully matches the name. -/

/-- Glob matching with explicit fuel so that the definition is structural and
kernel-evaluable; `pattern.length + name.length + 1` fuel always suffices. -/
def globMatchF : Nat → List Char → List Char → Bool
  | 0, _, _ => false
  | _ + 1, [], [] => true
  | _ + 1, [], _ :: _ => false
  | f + 1, '*' :: ps, [] => globMatchF f ps []
  | f + 1, '*' :: ps, c :: cs =>
    globMatchF f ps (c :: cs) || (decide (c ≠ '/') && globMatchF f ('*' :: ps) cs)
  | f + 1, '?' :: ps, c :: cs => decide (c ≠ '/') && globMatchF f ps cs
  | _ + 1, _ :: _, [] => false
  | f + 1, p :: ps, c :: cs => p = c && globMatchF f ps cs

/-- Modelled from the spec (§4.2): full-match of one compiled filter glob. -/
def matchesGlob (pat name : String) : Bool :=
  globMatchF (pat.data.length + name.data.length + 1) pat.data name.data

/-- `xrefs.MatchesAny` (modelled from the spec §4.2): true iff some pattern
matches; an empty pattern list matches nothing. -/
def matchesAny (name : String) (patterns : List String) : Bool :=
  patterns.any (fun p => matchesGlob p name)

/-! ### Ticket URIs

Modelled from the spec (§6): tickets are opaque `kythe://...` URIs that
round-trip with VNames.  The model takes the part after the scheme as the
VName. -/

def ticketScheme : String := "kythe://"

/-- `kytheuri.ToVName` (modelled from the spec): parse a ticket, failing on a
malformed one. -/
def toVName (t : String) : Except String String :=
  if charsStart ticketScheme.data t.data then .ok (String.mk (t.data.drop 8))
  else .error ("invalid ticket: " ++ t)

/-- `kytheuri.ToString` (modelled from the spec). -/
def vnameToTicket (v : String) : String := ticketScheme ++ v

/-- Keep the characters of an anchor ticket before its `'#'` fragment. -/
def takeUntilHash : List Char → List Char
  | [] => []
  | c :: cs => if c = '#' then [] else c :: takeUntilHash cs

/-- `tickets.AnchorFile` (modelled from the spec §4.8: derive each anchor's
parent file from the anchor ticket): drop the signature fragment. -/
def anchorFile (t : String) : Except String String :=
  if charsStart ticketScheme.data t.data then .ok (String.mk (takeUntilHash t.data))
  else .error ("invalid anchor ticket: " ++ t)

/-- `text.ToUTF8` (modelled from the spec: text-encoding conversion is an
external collaborator; the UTF-8 and default encodings used in this
development decode as the identity). -/
def textToUTF8 (_encoding data : String) : String := data

/-! ### The Normalizer

Modelled from the spec (§4.1): precomputed line starts (offset of each
newline, plus one; numbering 1-based); `byteOffset` clamps past-end offsets to
the end of file; `point` completes a partial point, lines beyond the last
clamping to the end of file. -/

structure Point where
  byteOffset : Int
  lineNumber : Int
  columnOffset : Int
  deriving DecidableEq, Repr

def lineStartsAux : List Char → Nat → List Nat
  | [], _ => []
  | c :: cs, i => if c = '\n' then (i + 1) :: lineStartsAux cs (i + 1) else lineStartsAux cs (i + 1)

/-- Byte offsets at which each line starts (line numbering is 1-based). -/
def lineStartsOf (text : String) : List Nat := 0 :: lineStartsAux text.data 0

def textLenI (text : String) : Int := (text.data.length : Int)

/-- Clamp an offset into `[0, len text]`. -/
def clampOffset (text : String) (b : Int) : Int := max 0 (min b (textLenI text))

def lastStartLEAux : List Nat → Int → Nat → Nat × Nat → Nat × Nat
  | [], _, _, best => best
  | s :: rest, b, i, best =>
    if (s : Int) ≤ b then lastStartLEAux rest b (i + 1) (i + 1, s)
    else lastStartLEAux rest b (i + 1) best

/-- The greatest (1-based) line whose start is at most `b`, with its start. -/
def lastStartLE (starts : List Nat) (b : Int) : Nat × Nat :=
  lastStartLEAux starts b 0 (1, 0)

/-- Modelled from the spec (§4.1): `byteOffset(b) → Point` with the line the
greatest one whose start is at most `b` and the column the distance from that
line's start; offsets outside the file are clamped. -/
def byteOffsetPoint (text : String) (b : Int) : Point :=
  let b' := clampOffset text b
  let ls := lastStartLE (lineStartsOf text) b'
  { byteOffset := b', lineNumber := (ls.1 : Int), columnOffset := b' - (ls.2 : Int) }

/-- Modelled from the spec (§4.1): complete a line/column pair; the column is
clamped into the line and a line beyond the last clamps to end of file. -/
def pointOfLineCol (text : String) (l col : Int) : Point :=
  let starts := lineStartsOf text
  if 1 ≤ l ∧ l ≤ (starts.length : Int) then
    let ls : Int := (starts.getD (l - 1).toNat 0 : Nat)
    let nextS : Int :=
      if l < (starts.length : Int) then (starts.getD l.toNat 0 : Nat) else textLenI text
    let c := max 0 (min col (nextS - ls))
    { byteOffset := ls + c, lineNumber := l, columnOffset := c }
  else { byteOffset := textLenI text, lineNumber := (starts.length : Int), columnOffset := 0 }

/-- Modelled from the spec (§4.1): point completion — a positive byte offset
wins, else a positive line is completed, else the zero point. -/
def completePoint (text : String) (p : Point) : Point :=
  if 0 < p.byteOffset then byteOffsetPoint text p.byteOffset
  else if 0 < p.lineNumber then pointOfLineCol text p.lineNumber p.columnOffset
  else { byteOffset := 0, lineNumber := 0, columnOffset := 0 }

/-! ### Store operations

`Read(source, edgeKind)` semantics (spec §6): empty kind means node facts
only, `"*"` means node facts and all edges, any other value is an exact
match.  Reads over the in-memory store are modelled as pure list filters; the
queries additionally count their store calls (Scan/Read/Write). -/

def readEntries (s : Store) (src : String) (ek : String) : List Entry :=
  s.filter (fun e =>
    e.source = src &&
      (if ek = "" then e.edgeKind = "" else if ek = "*" then true else e.edgeKind = ek))

/-! ### Reverse-edge bootstrap (`EnsureReverseEdges`, `addReverseEdges`) -/

/-- The reverse entry written by `addReverseEdges` for a forward edge. -/
def reverseOf (e : Entry) : Entry :=
  { source := e.target, edgeKind := mirrorKind e.edgeKind,
    factName := e.factName, factValue := e.factValue, target := e.source }

/-- `addReverseEdges`: scan the store and write the mirror of every forward
edge back into it (writes are appended to the store). -/
def addReverseEdges (s : Store) : Store :=
  s ++ (s.filter (fun e => e.edgeKind ≠ "" && isForwardKind e.edgeKind)).map reverseOf

/-- `EnsureReverseEdges`: sample the first edge in scan order; an empty store
or a reverse first edge is accepted as-is; otherwise probe for the sampled
edge's mirror and, if absent, run `addReverseEdges`. -/
def EnsureReverseEdges (s : Store) : Store :=
  match s.find? IsEdge with
  | none => s
  | some e =>
    if isReverseKind e.edgeKind then s
    else if (readEntries s e.target (mirrorKind e.edgeKind)).isEmpty then addReverseEdges s
    else s

/-! ### Node query -/

structure NodeInfo where
  facts : List (String × String)
  deriving DecidableEq, Repr

structure NodesRequest where
  tickets : List String
  filter : List String
  deriving DecidableEq, Repr

structure NodesReply where
  nodes : List (String × NodeInfo)
  deriving DecidableEq, Repr

/-- Parse every ticket of a request up front (`Nodes` does this before any
store call), failing on the first malformed one. -/
def parseTickets : List String → Except String (List String)
  | [] => .ok []
  | t :: ts =>
    match toVName t with
    | .error e => .error e
    | .ok v =>
      match parseTickets ts with
      | .error e => .error e
      | .ok vs => .ok (v :: vs)

/-- One visitor step of `Nodes`: keep a node-fact entry iff the filter list is
empty or its name matches some pattern (later entries overwrite). -/
def factsStep (patterns : List String) (m : List (String × String)) (e : Entry) :
    List (String × String) :=
  if patterns.isEmpty || matchesAny e.factName patterns then upsertA m e.factName e.factValue
  else m

/-- The fact map retained by `Nodes` for one node's entries. -/
def collectFacts (patterns : List String) (entries : List Entry) : List (String × String) :=
  entries.foldl (factsStep patterns) []

/-- The `NodeInfo` computed by `Nodes` for one ticket, when it has any
retained facts. -/
def nodeInfoFor (s : Store) (patterns : List String) (v : String) : List (String × String) :=
  collectFacts patterns (readEntries s v "")

/-- One `(ticket, vname)` step of the `Nodes` loop. -/
def nodesStep (s : Store) (fltr : List String)
    (acc : List (String × NodeInfo)) (tv : String × String) : List (String × NodeInfo) :=
  let facts := nodeInfoFor s fltr tv.2
  if facts.length > 0 then upsertA acc tv.1 ⟨facts⟩ else acc

/-- `Nodes`: return filtered node-fact sets for a ticket list, omitting
tickets with no retained facts.  The second component counts store calls (one
Read per ticket). -/
def Nodes (s : Store) (req : NodesRequest) : Except String NodesReply × Nat :=
  match parseTickets req.tickets with
  | .error e => (.error e, 0)
  | .ok names =>
    (.ok ⟨(req.tickets.zip names).foldl (nodesStep s req.filter) []⟩,
     (req.tickets.zip names).length)

/-! ### Edge query -/

structure EdgesRequest where
  tickets : List String
  kinds : List String
  filter : List String
  pageSize : Int
  pageToken : String
  deriving DecidableEq, Repr

structure EdgeGroupEdge where
  targetTicket : String
  ordinal : Int
  deriving DecidableEq, Repr

structure EdgeGroup where
  edge : List EdgeGroupEdge
  deriving DecidableEq, Repr

structure EdgeSet where
  groups : List (String × EdgeGroup)
  deriving DecidableEq, Repr

structure EdgesReply where
  edgeSets : List (String × EdgeSet)
  nodes : List (String × NodeInfo)
  nextPageToken : String
  deriving DecidableEq, Repr

/-- `filteredEdges`: edge kind → target ticket → deduplicated ordinals. -/
abbrev FilteredEdges := List (String × List (String × List Int))

def insertOrd (l : List Int) (o : Int) : List Int := if o ∈ l then l else l ++ [o]

def addFilteredEdge (fe : FilteredEdges) (kind target : String) (o : Int) : FilteredEdges :=
  updateA fe kind [] (fun targets => updateA targets target [] (fun ords => insertOrd ords o))

/-- Whether an edge entry's parsed base kind is retained by the allow-list. -/
def edgeKindAllowed (kinds : List String) (e : Entry) : Bool :=
  kinds.isEmpty || (parseOrdinal e.edgeKind).1 ∈ kinds

/-- One step of the per-ticket read visitor of `Edges`: node facts feed the
fact filter, edges feed `filteredEdges` when their base kind is allowed. -/
def edgesStep (kinds patterns : List String)
    (acc : FilteredEdges × List (String × String)) (e : Entry) :
    FilteredEdges × List (String × String) :=
  if e.edgeKind = "" then
    (acc.1,
     if patterns.length > 0 && matchesAny e.factName patterns then
       upsertA acc.2 e.factName e.factValue
     else acc.2)
  else
    let p := parseOrdinal e.edgeKind
    if edgeKindAllowed kinds e then
      (addFilteredEdge acc.1 p.1 (vnameToTicket e.target) p.2.1, acc.2)
    else acc

/-- Materialize the groups of an `EdgeSet` from `filteredEdges`: one edge
record per `(target, ordinal)` pair. -/
def groupsOf (fe : FilteredEdges) : List (String × EdgeGroup) :=
  fe.map (fun kt =>
    (kt.1, ⟨kt.2.foldl (fun es t => es ++ t.2.map (fun o => ⟨t.1, o⟩)) []⟩))

/-- The per-ticket loop of `Edges`.  A malformed ticket aborts the loop (reads
already made for earlier tickets are kept in the call count). -/
def edgesLoop (s : Store) (kinds fltr : List String) :
    List String → List (String × EdgeSet) → List (String × NodeInfo) → List String → Nat →
    Except String (List (String × EdgeSet) × List (String × NodeInfo) × List String) × Nat
  | [], es, nm, ts, calls => (.ok (es, nm, ts), calls)
  | t :: rest, es, nm, ts, calls =>
    match toVName t with
    | .error _ => (.error ("invalid ticket " ++ t), calls)
    | .ok v =>
      let feff := (readEntries s v "*").foldl (edgesStep kinds fltr) ([], [])
      if feff.1.isEmpty then edgesLoop s kinds fltr rest es nm ts (calls + 1)
      else
        let es' := upsertA es t ⟨groupsOf feff.1⟩
        let nm' := if feff.2.isEmpty then nm else upsertA nm t ⟨feff.2⟩
        let ts' := feff.1.foldl
          (fun acc kt => kt.2.foldl (fun a tt => insertStr a tt.1) acc) ts
        edgesLoop s kinds fltr rest es' nm' ts' (calls + 1)

/-- `Edges`: outbound edges from the tickets, grouped by kind with ordinals,
an `EdgeSet` being emitted only for sources with retained edges; when a fact
filter is given, target nodes are batch-fetched through `Nodes`. -/
def Edges (s : Store) (req : EdgesRequest) : Except String EdgesReply × Nat :=
  if req.tickets.isEmpty then (.error "no tickets specified", 0)
  else if req.pageToken ≠ "" then (.error "UNIMPLEMENTED: page_token", 0)
  else
    match edgesLoop s req.kinds req.filter req.tickets [] [] [] 0 with
    | (.error e, n) => (.error e, n)
    | (.ok (es, nm, ts), n) =>
      if req.filter.length > 0 then
        let ts' := nm.foldl (fun acc kv => removeStr acc kv.1) ts
        match Nodes s ⟨ts', req.filter⟩ with
        | (.error e, m) => (.error e, n + m)
        | (.ok nr, m) =>
          (.ok ⟨es, nr.nodes.foldl (fun acc kv => upsertA acc kv.1 kv.2) nm, ""⟩, n + m)
      else (.ok ⟨es, nm, ""⟩, n)

/-- The `filteredEdges` structure `Edges` computes for one vname. -/
def feOf (s : Store) (kinds fltr : List String) (v : String) : FilteredEdges :=
  ((readEntries s v "*").foldl (edgesStep kinds fltr) ([], [])).1

/-- The result is an error (of any message). -/
def isErrE {α : Type} (r : Except String α) : Prop := ∃ e, r = .error e

/-! ### Decorations query -/

inductive LocationKind
  | file
  | span
  deriving DecidableEq, Repr

structure Location where
  ticket : String
  kind : LocationKind
  start : Option Point
  stop : Option Point
  deriving DecidableEq, Repr

inductive SpanKind
  | withinSpan
  | aroundSpan
  deriving DecidableEq, Repr

structure DecorationsRequest where
  location : Option Location
  spanKind : SpanKind
  dirtyBuffer : String
  sourceText : Bool
  references : Bool
  filter : List String
  deriving DecidableEq, Repr

structure Reference where
  sourceTicket : String
  kind : String
  targetTicket : String
  anchorStart : Point
  anchorEnd : Point
  deriving DecidableEq, Repr

structure DecorationsReply where
  location : Location
  nodes : List (String × NodeInfo)
  sourceText : String
  encoding : String
  reference : List Reference
  deriving DecidableEq, Repr

/-- `xrefs.InSpanBounds` (modelled from the spec §4.6.c: within-span keeps
fully contained anchors, around-span keeps anchors containing the window). -/
def inSpanBounds (k : SpanKind) (start stop startB endB : Int) : Bool :=
  match k with
  | .withinSpan => startB ≤ start && stop ≤ endB
  | .aroundSpan => start ≤ startB && endB ≤ stop

/-- `Normalizer.Location` (modelled from the spec §4.6 step 2): a file-kind
location passes through; a span-kind location has both points completed and
must satisfy `start ≤ end`. -/
def normalizeLocation (text : String) (loc : Location) : Except String Location :=
  if loc.kind = .file then .ok { ticket := loc.ticket, kind := .file, start := none, stop := none }
  else
    match loc.start, loc.stop with
    | none, _ => .error "invalid SPAN location: missing start point"
    | some _, none => .error "invalid SPAN location: missing end point"
    | some sp, some ep =>
      let s' := completePoint text sp
      let e' := completePoint text ep
      if s'.byteOffset > e'.byteOffset then .error "invalid SPAN location: start is past end"
      else .ok { ticket := loc.ticket, kind := .span, start := some s', stop := some e' }

def locStartByte (loc : Location) : Int := ((loc.start.map Point.byteOffset).getD 0)

def locEndByte (loc : Location) : Int := ((loc.stop.map Point.byteOffset).getD 0)

/-- One visitor step of `getSourceText`: the `text` and `text/encoding` facts
are retained (later entries overwrite), other facts are skipped. -/
def sourceTextStep (acc : Option String × String) (e : Entry) : Option String × String :=
  if e.factName = factText then (some e.factValue, acc.2)
  else if e.factName = factTextEncoding then (acc.1, e.factValue)
  else acc

/-- `getSourceText`: read the file's `text` and `text/encoding` facts (one
store Read); a file without a `text` fact is an error. -/
def getSourceText (s : Store) (fileV : String) : Except String (String × String) × Nat :=
  let r := (readEntries s fileV "").foldl sourceTextStep (none, "")
  match r.1 with
  | none => (.error "file not found", 1)
  | some t => (.ok (t, r.2), 1)

structure EdgeTarget where
  kind : String
  target : String
  ordinal : Int
  deriving DecidableEq, Repr

/-- `getEdges`: edge targets of a node whose entries satisfy `pred` (one store
Read); kinds are returned with the ordinal parsed off. -/
def getEdges (s : Store) (node : String) (pred : Entry → Bool) : List EdgeTarget × Nat :=
  (((readEntries s node "*").filter (fun e => IsEdge e && pred e)).map
      (fun e =>
        let p := parseOrdinal e.edgeKind
        ⟨p.1, e.target, p.2.1⟩),
   1)

/-- `filterNode`: retain the facts matching the patterns; `none` when no
patterns were given or nothing matches. -/
def filterNode (patterns : List String) (node : NodeInfo) : Option NodeInfo :=
  if patterns.isEmpty then none
  else
    let ff := node.facts.filter (fun nv => matchesAny nv.1 patterns)
    if ff.isEmpty then none else some ⟨ff⟩

/-- `bySpan.Less`: strict lexicographic order on anchor-span byte offsets. -/
def spanLess (a b : Reference) : Bool :=
  if a.anchorStart.byteOffset < b.anchorStart.byteOffset then true
  else if a.anchorStart.byteOffset > b.anchorStart.byteOffset then false
  else if a.anchorEnd.byteOffset < b.anchorEnd.byteOffset then true
  else false

/-- The non-strict companion of `spanLess` (what a `sort.Sort(bySpan)` output
satisfies between adjacent elements). -/
def spanLE (a b : Reference) : Prop :=
  a.anchorStart.byteOffset < b.anchorStart.byteOffset ∨
    (a.anchorStart.byteOffset = b.anchorStart.byteOffset ∧
      a.anchorEnd.byteOffset ≤ b.anchorEnd.byteOffset)

instance : DecidablePred (fun ab : Reference × Reference => spanLE ab.1 ab.2) := by
  intro ab; unfold spanLE; infer_instance

def insertBySpan (r : Reference) : List Reference → List Reference
  | [] => [r]
  | x :: xs => if spanLess x r then x :: insertBySpan r xs else r :: x :: xs

/-- `sort.Sort(bySpan(...))`, modelled as an insertion sort with the source's
`Less`. -/
def sortBySpan : List Reference → List Reference
  | [] => []
  | r :: rs => insertBySpan r (sortBySpan rs)

/-- The per-child step of the `Decorations` references loop: resolve the
child's node facts, skip non-anchors and unparseable or (for span-kind
requests) out-of-window spans, then resolve the anchor's forward edges into
references.  As in the source, the parsed `int` offsets are converted to
`int32` before `InSpanBounds` and before `norm.ByteOffset`, while the
`start > end` check compares the unconverted values. -/
def processChild (s : Store) (text : String) (patterns : List String)
    (locKind : LocationKind) (locStart locEnd : Int) (spanK : SpanKind) (c : EdgeTarget) :
    Except String (Option (Option (String × NodeInfo) × List Reference × List String)) × Nat :=
  let ticket := vnameToTicket c.target
  match Nodes s ⟨[ticket], []⟩ with
  | (.error e, n) => (.error e, n)
  | (.ok nr, n) =>
    if nr.nodes.length ≠ 1 then (.error ("found nodes for " ++ ticket), n)
    else
      match lookupA nr.nodes ticket with
      | none => (.error ("failed to find info for node " ++ ticket), n)
      | some info =>
        if (lookupA info.facts factNodeKind).getD "" ≠ nodeKindAnchor then (.ok none, n)
        else
          match goAtoi ((lookupA info.facts factAnchorStart).getD "") with
          | none => (.ok none, n)
          | some aStart =>
            match goAtoi ((lookupA info.facts factAnchorEnd).getD "") with
            | none => (.ok none, n)
            | some aEnd =>
              if locKind = .span &&
                  (!inSpanBounds spanK (wrapInt32 aStart) (wrapInt32 aEnd) locStart locEnd ||
                    aStart > aEnd) then
                (.ok none, n)
              else
                let tg := getEdges s c.target
                  (fun e => isForwardKind e.edgeKind && e.edgeKind ≠ edgeChildOf)
                if tg.1.isEmpty then (.ok none, n + 1)
                else
                  let nodeE := (filterNode patterns info).map (fun fi => (ticket, fi))
                  let refs := tg.1.map (fun t =>
                    ({ sourceTicket := ticket, kind := t.kind,
                       targetTicket := vnameToTicket t.target,
                       anchorStart := byteOffsetPoint text (wrapInt32 aStart),
                       anchorEnd := byteOffsetPoint text (wrapInt32 aEnd) } : Reference))
                  (.ok (some (nodeE, refs, tg.1.map (fun t => vnameToTicket t.target))), n + 1)

/-- The references loop of `Decorations` over the file's children. -/
def childrenLoop (s : Store) (text : String) (patterns : List String)
    (locKind : LocationKind) (locStart locEnd : Int) (spanK : SpanKind) :
    List EdgeTarget → List (String × NodeInfo) → List Reference → List String →
    Except String (List (String × NodeInfo) × List Reference × List String) × Nat
  | [], nm, rf, ts => (.ok (nm, rf, ts), 0)
  | c :: rest, nm, rf, ts =>
    match processChild s text patterns locKind locStart locEnd spanK c with
    | (.error e, n) => (.error e, n)
    | (.ok none, n) =>
      let r := childrenLoop s text patterns locKind locStart locEnd spanK rest nm rf ts
      (r.1, n + r.2)
    | (.ok (some (ne, refs, tgts)), n) =>
      let nm' := match ne with | some kv => upsertA nm kv.1 kv.2 | none => nm
      let r := childrenLoop s text patterns locKind locStart locEnd spanK rest nm'
        (rf ++ refs) (tgts.foldl insertStr ts)
      (r.1, n + r.2)

/-- `Decorations`: reject dirty buffers and missing locations, fetch and
normalize the file, optionally attach source text, and optionally resolve the
file's anchors into span-sorted references. -/
def Decorations (s : Store) (req : DecorationsRequest) :
    Except String DecorationsReply × Nat :=
  if req.dirtyBuffer ≠ "" then (.error "UNIMPLEMENTED: dirty buffers", 0)
  else
    match req.location with
    | none => (.error "missing location", 0)
    | some rloc =>
      match toVName rloc.ticket with
      | .error e => (.error e, 0)
      | .ok fileV =>
        match getSourceText s fileV with
        | (.error e, n0) => (.error e, n0)
        | (.ok (text, enc), n0) =>
          match normalizeLocation text rloc with
          | .error e => (.error e, n0)
          | .ok loc =>
            let st := if req.sourceText then
                (if loc.kind = .file then text
                 else strSlice text (locStartByte loc) (locEndByte loc))
              else ""
            let eo := if req.sourceText then enc else ""
            if req.references then
              let children := getEdges s fileV (fun e => e.edgeKind = revChildOfEdgeKind)
              match childrenLoop s text req.filter loc.kind (locStartByte loc)
                  (locEndByte loc) req.spanKind children.1 [] [] [] with
              | (.error e, m) => (.error e, n0 + 1 + m)
              | (.ok (nm, refs, ts), m) =>
                let sorted := sortBySpan refs
                if req.filter.length > 0 then
                  let ts' := nm.foldl (fun acc kv => removeStr acc kv.1) ts
                  match Nodes s ⟨ts', req.filter⟩ with
                  | (.error e, k) => (.error e, n0 + 1 + m + k)
                  | (.ok nr, k) =>
                    (.ok ⟨loc, nr.nodes.foldl (fun acc kv => upsertA acc kv.1 kv.2) nm,
                          st, eo, sorted⟩,
                     n0 + 1 + m + k)
                else (.ok ⟨loc, nm, st, eo, sorted⟩, n0 + 1 + m)
            else (.ok ⟨loc, [], st, eo, []⟩, n0)

/-! ### Cross-references query -/

inductive DefinitionKind
  | allDefinitions
  | fullDefinitions
  | bindingDefinitions
  | noDefinitions
  deriving DecidableEq, Repr

inductive ReferenceKind
  | allReferences
  | noReferences
  deriving DecidableEq, Repr

inductive DocumentationKind
  | allDocumentation
  | noDocumentation
  deriving DecidableEq, Repr

/-- `xrefs.IsDefKind` (modelled from the spec §4.7 classification masks; the
source always passes `incomplete = false`, folded in here). -/
def isDefKindMatch (req : DefinitionKind) (edgeKind : String) : Bool :=
  let c := canonicalKind edgeKind
  match req with
  | .noDefinitions => false
  | .allDefinitions => isVariantKind c edgeDefines
  | .fullDefinitions => c = edgeDefines
  | .bindingDefinitions => c = edgeDefinesBinding

/-- `xrefs.IsRefKind` (modelled from the spec §4.7 classification masks). -/
def isRefKindMatch (req : ReferenceKind) (edgeKind : String) : Bool :=
  match req with
  | .noReferences => false
  | .allReferences => isVariantKind (canonicalKind edgeKind) edgeRef

/-- `xrefs.IsDocKind` (modelled from the spec §4.7 classification masks). -/
def isDocKindMatch (req : DocumentationKind) (edgeKind : String) : Bool :=
  match req with
  | .noDocumentation => false
  | .allDocumentation => isVariantKind (canonicalKind edgeKind) edgeDocuments

structure CrossReferencesRequest where
  tickets : List String
  definitionKind : DefinitionKind
  referenceKind : ReferenceKind
  documentationKind : DocumentationKind
  anchorText : Bool
  filter : List String
  pageSize : Int
  pageToken : String
  deriving DecidableEq, Repr

structure Anchor where
  ticket : String
  kind : String
  parent : String
  start : Option Point
  stop : Option Point
  text : String
  snippet : String
  snippetStart : Option Point
  snippetEnd : Option Point
  deriving DecidableEq, Repr

structure RelatedAnchor where
  anchor : Anchor
  deriving DecidableEq, Repr

structure RelatedNode where
  ticket : String
  relationKind : String
  ordinal : Int
  deriving DecidableEq, Repr

structure CrossReferenceSet where
  ticket : String
  definition : List RelatedAnchor
  reference : List RelatedAnchor
  documentation : List RelatedAnchor
  relatedNode : List RelatedNode
  deriving DecidableEq, Repr

/-- The reply's `Nodes` map is a `nil` Go map unless a filter was given;
`none` models `nil`. -/
structure CrossReferencesReply where
  crossReferences : List (String × CrossReferenceSet)
  nodes : Option (List (String × NodeInfo))
  nextPageToken : String
  deriving DecidableEq, Repr

def defaultXRefPageSize : Int := 1024

/-- Modelled from the spec: `schema.AnchorLocFilter`. -/
def anchorLocFilter : String := "/kythe/loc/*"

/-- Modelled from the spec: `schema.SnippetLocFilter`. -/
def snippetLocFilter : String := "/kythe/snippet/*"

/-- A cached parent file: raw text and encoding (the normalizer is a function
of the text). -/
structure FileNode where
  text : String
  encoding : String
  deriving DecidableEq, Repr

abbrev FileCache := List (String × FileNode)

def edgeTickets (es : List EdgeGroupEdge) : List String :=
  es.map (fun e => e.targetTicket)

/-- `getSpan`: read and parse a start/end fact pair, failing when either is
missing, unparseable, or inverted. -/
def getSpan (facts : List (String × String)) (startFact endFact : String) :
    Option (Int × Int) :=
  let st := (lookupA facts startFact).getD ""
  let en := (lookupA facts endFact).getD ""
  if st = "" || en = "" then none
  else
    match goAtoi st, goAtoi en with
    | some so, some eo => if so > eo then none else some (so, eo)
    | _, _ => none

/-- `normalizeSpan`: normalize both offsets and fail when normalization
disagrees with the input (i.e. an offset lay outside the file). -/
def normalizeSpan (text : String) (so eo : Int) : Option (Point × Point) :=
  let st := byteOffsetPoint text so
  let en := byteOffsetPoint text eo
  if st.byteOffset ≠ so then none
  else if en.byteOffset ≠ eo then none
  else some (st, en)

/-- Fetch a parent file's node for the per-request cache (one `Nodes` call);
a file with no facts yields empty text and encoding. -/
def fetchFileNode (s : Store) (parent : String) : Except String FileNode × Nat :=
  match Nodes s ⟨[parent], []⟩ with
  | (.error e, n) => (.error e, n)
  | (.ok r, n) =>
    let info := (lookupA r.nodes parent).getD ⟨[]⟩
    (.ok ⟨(lookupA info.facts factText).getD "", (lookupA info.facts factTextEncoding).getD ""⟩, n)

/-- The canonical file node for a parent ticket (what a cache miss fetches
and what a coherent cache stores). -/
def fileNodeOf (s : Store) (parent : String) : FileNode :=
  (((fetchFileNode s parent).1.toOption)).getD ⟨"", ""⟩

/-- The anchor produced by `completeAnchorStep` for a zero-width span at the
normalized point `st`: no anchor text, and the line-based fallback snippet
running from the start of the anchor's line to the byte before the next line
start. -/
def zwAnchor (s : Store) (parent t ek : String) (st : Point) : Anchor :=
  let file := fileNodeOf s parent
  let nextLine := pointOfLineCol file.text (st.lineNumber + 1) 0
  { ticket := t, kind := ek, parent := parent,
    start := some st, stop := some st, text := "",
    snippet := textToUTF8 file.encoding
      (strSlice file.text (st.byteOffset - st.columnOffset) (nextLine.byteOffset - 1)),
    snippetStart := some ⟨st.byteOffset - st.columnOffset, st.lineNumber, 0⟩,
    snippetEnd := some ⟨nextLine.byteOffset - 1, st.lineNumber,
      st.columnOffset + (nextLine.byteOffset - st.byteOffset - 1)⟩ }

/-- The snippet values of a completed anchor: the indexer-provided snippet
span when present and valid, otherwise the line-based fallback from the start
of the anchor's line to the byte before the next line start. -/
def anchorSnippet (file : FileNode) (facts : List (String × String)) (st : Point) :
    String × Option Point × Option Point :=
  let fromFacts :=
    match getSpan facts factSnippetStart factSnippetEnd with
    | some se =>
      match normalizeSpan file.text (wrapInt32 se.1) (wrapInt32 se.2) with
      | some p =>
        (textToUTF8 file.encoding (strSlice file.text p.1.byteOffset p.2.byteOffset),
         some p.1, some p.2)
      | none => ("", none, none)
    | none => ("", none, none)
  if fromFacts.1 = "" then
    let snipStart : Point :=
      { byteOffset := st.byteOffset - st.columnOffset, lineNumber := st.lineNumber,
        columnOffset := 0 }
    let nextLine := pointOfLineCol file.text (st.lineNumber + 1) 0
    let snipEnd : Point :=
      { byteOffset := nextLine.byteOffset - 1, lineNumber := st.lineNumber,
        columnOffset := st.columnOffset + (nextLine.byteOffset - st.byteOffset - 1) }
    (textToUTF8 file.encoding (strSlice file.text snipStart.byteOffset snipEnd.byteOffset),
     some snipStart, some snipEnd)
  else fromFacts

/-- The loop body of `completeAnchors` for one anchor ticket: parse the span
facts, fetch (or reuse from the cache) the parent file, normalize the span
(after the source's `int32` conversion of both offsets), optionally decode
the anchor text, and attach a snippet. -/
def completeAnchorStep (s : Store) (retrieveText : Bool) (edgeKindC : String)
    (parents : List (String × String)) (files : FileCache)
    (ticket : String) (info : NodeInfo) :
    Except String (FileCache × Option Anchor) × Nat :=
  match getSpan info.facts factAnchorStart factAnchorEnd with
  | none => (.ok (files, none), 0)
  | some se =>
    let parent := (lookupA parents ticket).getD ""
    let fetched : Except String (FileCache × FileNode) × Nat :=
      match lookupA files parent with
      | some f => (.ok (files, f), 0)
      | none =>
        match fetchFileNode s parent with
        | (.error e, n) => (.error e, n)
        | (.ok f, n) => (.ok (upsertA files parent f, f), n)
    match fetched with
    | (.error e, n) => (.error e, n)
    | (.ok (files', file), n) =>
      match normalizeSpan file.text (wrapInt32 se.1) (wrapInt32 se.2) with
      | none => (.ok (files', none), n)
      | some p =>
        let atext :=
          if retrieveText && p.1.byteOffset < p.2.byteOffset then
            textToUTF8 file.encoding (strSlice file.text p.1.byteOffset p.2.byteOffset)
          else ""
        let snip := anchorSnippet file info.facts p.1
        (.ok (files',
              some { ticket := ticket, kind := edgeKindC, parent := parent,
                     start := some p.1, stop := some p.2, text := atext,
                     snippet := snip.1, snippetStart := snip.2.1, snippetEnd := snip.2.2 }),
         n)

/-- Derive each anchor's parent file ticket, failing on a malformed anchor
ticket. -/
def buildParents : List String → Except String (List (String × String))
  | [] => .ok []
  | a :: rest =>
    match anchorFile a with
    | .error e => .error e
    | .ok f =>
      match buildParents rest with
      | .error e => .error e
      | .ok ps => .ok ((a, f) :: ps)

def completeAnchorsLoop (s : Store) (rt : Bool) (ek : String)
    (parents : List (String × String)) :
    List (String × NodeInfo) → FileCache →
    Except String (List RelatedAnchor × FileCache) × Nat
  | [], files => (.ok ([], files), 0)
  | (t, i) :: rest, files =>
    match completeAnchorStep s rt ek parents files t i with
    | (.error e, n) => (.error e, n)
    | (.ok (files', oa), n) =>
      match completeAnchorsLoop s rt ek parents rest files' with
      | (.error e, m) => (.error e, n + m)
      | (.ok (as, files''), m) =>
        (.ok ((match oa with | some a => [(⟨a⟩ : RelatedAnchor)] | none => []) ++ as, files''),
         n + m)

/-- `completeAnchors`: resolve anchor tickets into fully located, snippeted
`RelatedAnchor` records, sharing the per-request file cache. -/
def completeAnchors (s : Store) (retrieveText : Bool) (files : FileCache)
    (edgeKind : String) (anchors : List String) :
    Except String (List RelatedAnchor × FileCache) × Nat :=
  let ekC := canonicalKind edgeKind
  match buildParents anchors with
  | .error e => (.error e, 0)
  | .ok parents =>
    match Nodes s ⟨anchors, [anchorLocFilter, snippetLocFilter]⟩ with
    | (.error e, n) => (.error e, n)
    | (.ok r, n) =>
      let lr := completeAnchorsLoop s retrieveText ekC parents r.nodes files
      (lr.1, n + lr.2)

/-- The per-source group classification loop of `CrossReferences`: each group
kind is tested as definition, then reference, then documentation; otherwise
`RelatedNode` entries are emitted only when `allRelatedNodes` is already
non-empty and the kind is not an anchor-edge kind. -/
def groupsLoop (s : Store) (req : CrossReferencesRequest) :
    List (String × EdgeGroup) → CrossReferenceSet → FileCache → List String → Nat →
    Except String (CrossReferenceSet × FileCache × List String × Nat) × Nat
  | [], xr, files, rel, count => (.ok (xr, files, rel, count), 0)
  | (kind, grp) :: rest, xr, files, rel, count =>
    if isDefKindMatch req.definitionKind kind then
      match completeAnchors s req.anchorText files kind (edgeTickets grp.edge) with
      | (.error e, n) => (.error e, n)
      | (.ok (anchors, files'), n) =>
        let r := groupsLoop s req rest
          { xr with definition := xr.definition ++ anchors } files' rel
          (count + anchors.length)
        (r.1, n + r.2)
    else if isRefKindMatch req.referenceKind kind then
      match completeAnchors s req.anchorText files kind (edgeTickets grp.edge) with
      | (.error e, n) => (.error e, n)
      | (.ok (anchors, files'), n) =>
        let r := groupsLoop s req rest
          { xr with reference := xr.reference ++ anchors } files' rel
          (count + anchors.length)
        (r.1, n + r.2)
    else if isDocKindMatch req.documentationKind kind then
      match completeAnchors s req.anchorText files kind (edgeTickets grp.edge) with
      | (.error e, n) => (.error e, n)
      | (.ok (anchors, files'), n) =>
        let r := groupsLoop s req rest
          { xr with documentation := xr.documentation ++ anchors } files' rel
          (count + anchors.length)
        (r.1, n + r.2)
    else if !rel.isEmpty && !isAnchorEdgeKind kind then
      let newRel := grp.edge.map (fun e => (⟨e.targetTicket, kind, e.ordinal⟩ : RelatedNode))
      let xr' := { xr with relatedNode := xr.relatedNode ++ newRel }
      let rel' := grp.edge.foldl (fun r e => insertStr r e.targetTicket) rel
      groupsLoop s req rest xr' files rel' (count + grp.edge.length)
    else groupsLoop s req rest xr files rel count

/-- The per-source loop of `CrossReferences` over the edge sets returned by
`Edges`: a source's `CrossReferenceSet` is kept only when it produced at
least one cross-reference. -/
def sourcesLoop (s : Store) (req : CrossReferencesRequest) :
    List (String × EdgeSet) → List (String × CrossReferenceSet) → FileCache →
    List String → Nat →
    Except String (List (String × CrossReferenceSet) × FileCache × List String × Nat) × Nat
  | [], cr, files, rel, totalX => (.ok (cr, files, rel, totalX), 0)
  | (source, es) :: rest, cr, files, rel, totalX =>
    let xr0 := (lookupA cr source).getD ⟨source, [], [], [], []⟩
    match groupsLoop s req es.groups xr0 files rel 0 with
    | (.error e, n) => (.error e, n)
    | (.ok (xr, files', rel', count), n) =>
      let cr' := if count > 0 then upsertA cr xr.ticket xr else cr
      let r := sourcesLoop s req rest cr' files' rel'
        (if count > 0 then totalX + count else totalX)
      (r.1, n + r.2)

/-- `CrossReferences`: classify each source's outgoing edge groups into
definitions/references/documentation (resolving anchors) or related nodes,
then batch-fetch related-node facts when any were gathered.  `Edges` never
returns a page token, so its re-fetch loop runs exactly once and is embedded
straight-line.  The outer `Option` separates a Go panic (`none`, which would
arise from writing into the reply's `nil` nodes map) from a returned value or
error (`some`). -/
def CrossReferences (s : Store) (req : CrossReferencesRequest) :
    Option (Except String CrossReferencesReply) × Nat :=
  if req.tickets.isEmpty then (some (.error "no cross-references requested"), 0)
  else
    let pageSize := if req.pageSize = 0 then defaultXRefPageSize else req.pageSize
    match Edges s ⟨req.tickets, [], [], pageSize, req.pageToken⟩ with
    | (.error e, n) => (some (.error e), n)
    | (.ok eReply, n) =>
      let nodes0 : Option (List (String × NodeInfo)) :=
        if req.filter.length > 0 then some [] else none
      match sourcesLoop s req eReply.edgeSets [] [] [] 0 with
      | (.error e, m) => (some (.error e), n + m)
      | (.ok (cr, _files, rel, _totalX), m) =>
        if rel.isEmpty then
          (some (.ok ⟨cr, nodes0, eReply.nextPageToken⟩), n + m)
        else
          match Nodes s ⟨rel, req.filter⟩ with
          | (.error e, k) => (some (.error e), n + m + k)
          | (.ok nr, k) =>
            match nodes0 with
            | some base =>
              (some (.ok ⟨cr,
                          some (nr.nodes.foldl (fun acc kv => upsertA acc kv.1 kv.2) base),
                          eReply.nextPageToken⟩),
               n + m + k)
            | none =>
              if nr.nodes.isEmpty then
                (some (.ok ⟨cr, none, eReply.nextPageToken⟩), n + m + k)
              else (none, n + m + k)

instance {ε α : Type} [DecidableEq ε] [DecidableEq α] : DecidableEq (Except ε α) := fun a b =>
  match a, b with
  | .ok x, .ok y =>
    if h : x = y then isTrue (h ▸ rfl) else isFalse (fun hh => h (Except.ok.inj hh))
  | .ok _, .error _ => isFalse (fun hh => Except.noConfusion hh)
  | .error _, .ok _ => isFalse (fun hh => Except.noConfusion hh)
  | .error x, .error y =>
    if h : x = y then isTrue (h ▸ rfl) else isFalse (fun hh => h (Except.error.inj hh))

/-! ### Concrete inputs used by witnesses and counterexamples -/

/-- The S5 classification scenario: ticket `X` with outgoing edges
`defines/binding → A1`, `ref → A2` and `generates → Y`, the anchors living in
file `F`. -/
def s5store : Store :=
  [⟨"f", "", "/kythe/text", "ab\ncd\n", ""⟩,
   ⟨"f", "", "/kythe/node/kind", "file", ""⟩,
   ⟨"f#a1", "", "/kythe/node/kind", "anchor", ""⟩,
   ⟨"f#a1", "", "/kythe/loc/start", "0", ""⟩,
   ⟨"f#a1", "", "/kythe/loc/end", "1", ""⟩,
   ⟨"f#a2", "", "/kythe/node/kind", "anchor", ""⟩,
   ⟨"f#a2", "", "/kythe/loc/start", "3", ""⟩,
   ⟨"f#a2", "", "/kythe/loc/end", "4", ""⟩,
   ⟨"x", "/kythe/edge/defines/binding", "/", "", "f#a1"⟩,
   ⟨"x", "/kythe/edge/ref", "/", "", "f#a2"⟩,
   ⟨"x", "/kythe/edge/generates", "/", "", "y"⟩,
   ⟨"y", "", "/kythe/node/kind", "record", ""⟩]

/-- `definitionKind = BINDING`, `referenceKind = ALL`, default (`ALL`)
documentation kind, a non-empty related-node filter. -/
def s5req : CrossReferencesRequest :=
  ⟨["kythe://x"], .bindingDefinitions, .allReferences, .allDocumentation, true,
   ["/kythe/node/kind"], 0, ""⟩

/-- The `CrossReferenceSet` the S5 scenario produces for ticket `X`. -/
def c1xr : Option CrossReferenceSet :=
  match (CrossReferences s5store s5req).1 with
  | some (.ok reply) => lookupA reply.crossReferences "kythe://x"
  | _ => none

def c9reply : CrossReferencesReply :=
  (((CrossReferences s5store s5req).1.getD (.error "")).toOption).getD ⟨[], none, ""⟩

/-- A store whose first edge in scan order is a reverse edge, while a forward
edge elsewhere has no reverse. -/
def c2store : Store :=
  [⟨"b", "%/kythe/edge/childof", "/", "", "a"⟩,
   ⟨"c", "/kythe/edge/ref", "/", "", "d"⟩]

/-- A store with a single forward edge and no reverse edges. -/
def c2wstore : Store :=
  [⟨"a", "/kythe/edge/childof", "/kythe/fact", "v", "f"⟩]

def c3store : Store :=
  [⟨"t", "", "/kythe/node/kind", "function", ""⟩,
   ⟨"t", "", "/kythe/loc/start", "0", ""⟩]

def c3reqAll : NodesRequest := ⟨["kythe://t"], []⟩

def c3reqFiltered : NodesRequest := ⟨["kythe://t"], ["/kythe/node/kind"]⟩

def c3replyAll : NodesReply := ((Nodes c3store c3reqAll).1.toOption).getD ⟨[]⟩

def c3replyFiltered : NodesReply := ((Nodes c3store c3reqFiltered).1.toOption).getD ⟨[]⟩

def emptyStore : Store := []

/-- An `Edges` request whose second ticket is malformed. -/
def c4badEdgesReq : EdgesRequest := ⟨["kythe://g", "bad"], [], [], 0, ""⟩

/-- A file with two anchors listed in reverse span order, each with one `ref`
edge. -/
def c5store : Store :=
  [⟨"g", "", "/kythe/text", "abc\ndef\n", ""⟩,
   ⟨"g", "%/kythe/edge/childof", "/", "", "g#a2"⟩,
   ⟨"g", "%/kythe/edge/childof", "/", "", "g#a1"⟩,
   ⟨"g#a1", "", "/kythe/node/kind", "anchor", ""⟩,
   ⟨"g#a1", "", "/kythe/loc/start", "0", ""⟩,
   ⟨"g#a1", "", "/kythe/loc/end", "3", ""⟩,
   ⟨"g#a1", "/kythe/edge/ref", "/", "", "t1"⟩,
   ⟨"g#a2", "", "/kythe/node/kind", "anchor", ""⟩,
   ⟨"g#a2", "", "/kythe/loc/start", "4", ""⟩,
   ⟨"g#a2", "", "/kythe/loc/end", "7", ""⟩,
   ⟨"g#a2", "/kythe/edge/ref", "/", "", "t2"⟩]

def c5req : DecorationsRequest :=
  ⟨some ⟨"kythe://g", .file, none, none⟩, .withinSpan, "", false, true, []⟩

def c5reply : DecorationsReply :=
  ((Decorations c5store c5req).1.toOption).getD ⟨⟨"", .file, none, none⟩, [], "", "", []⟩

/-- A file whose node has a `text` fact but no `text/encoding` fact. -/
def c6store : Store := [⟨"h6", "", "/kythe/text", "hi", ""⟩]

def c6req : DecorationsRequest :=
  ⟨some ⟨"kythe://h6", .file, none, none⟩, .withinSpan, "", true, false, []⟩

def c6reply : DecorationsReply :=
  ((Decorations c6store c6req).1.toOption).getD ⟨⟨"", .file, none, none⟩, [], "", "", []⟩

/-- A node with facts but no edges at all. -/
def c7store : Store := [⟨"n", "", "/kythe/node/kind", "record", ""⟩]

def c7req : EdgesRequest := ⟨["kythe://n"], [], ["/kythe/node/kind"], 0, ""⟩

def c7reply : EdgesReply := ((Edges c7store c7req).1.toOption).getD ⟨[], [], ""⟩

/-- A zero-width anchor (`loc/start = loc/end = 7`) with no snippet facts in
a two-line file. -/
def c8store : Store :=
  [⟨"w", "", "/kythe/text", "hello\nworld\n", ""⟩,
   ⟨"w#z", "", "/kythe/node/kind", "anchor", ""⟩,
   ⟨"w#z", "", "/kythe/loc/start", "7", ""⟩,
   ⟨"w#z", "", "/kythe/loc/end", "7", ""⟩]

/-- A zero-width anchor with no snippet facts sitting on the file's trailing
empty line (`loc/start = loc/end = 12` in a 12-byte file ending in a
newline): its line starts at byte 12 but the next line start clamps to end of
file, so the fallback snippet slice is inverted (`text[12:11]`). -/
def c8estore : Store :=
  [⟨"w", "", "/kythe/text", "hello\nworld\n", ""⟩,
   ⟨"w#z", "", "/kythe/node/kind", "anchor", ""⟩,
   ⟨"w#z", "", "/kythe/loc/start", "12", ""⟩,
   ⟨"w#z", "", "/kythe/loc/end", "12", ""⟩]

/-- A file-kind decorations request over a file with an anchor whose span is
inverted and reaches past the end of the file; the start offset
`2147483652 = 2^31 + 4` additionally exercises the source's `int32`
conversion (it wraps to the negative `-2147483644`, which the normalizer
clamps to the zero point). -/
def c10store : Store :=
  [⟨"h", "", "/kythe/text", "xyz", ""⟩,
   ⟨"h", "%/kythe/edge/childof", "/", "", "h#w"⟩,
   ⟨"h#w", "", "/kythe/node/kind", "anchor", ""⟩,
   ⟨"h#w", "", "/kythe/loc/start", "2147483652", ""⟩,
   ⟨"h#w", "", "/kythe/loc/end", "2", ""⟩,
   ⟨"h#w", "/kythe/edge/ref", "/", "", "tt"⟩]

def c10req : DecorationsRequest :=
  ⟨some ⟨"kythe://h", .file, none, none⟩, .withinSpan, "", false, true, []⟩

def c10reply : DecorationsReply :=
  ((Decorations c10store c10req).1.toOption).getD ⟨⟨"", .file, none, none⟩, [], "", "", []⟩

/-! ## Theorems

Support lemmas first, then one theorem (with witness or counterexample) per
claim. -/

theorem lookupA_upsertA {α : Type} (m : List (String × α)) (k k' : String) (v : α) :
    lookupA (upsertA m k v) k' = if k = k' then some v else lookupA m k' := by
  induction m with
  | nil => simp [upsertA, lookupA]
  | cons p rest ih =>
    obtain ⟨k₀, v₀⟩ := p
    by_cases h : k₀ = k
    · subst h
      by_cases h' : k₀ = k'
      · subst h'; simp [upsertA, lookupA]
      · simp [upsertA, lookupA, h']
    · by_cases h' : k₀ = k'
      · subst h'
        have : ¬ k = k₀ := fun hh => h hh.symm
        simp [upsertA, lookupA, h, this]
      · simp [upsertA, lookupA, h, h', ih]

theorem mem_upsertA {α : Type} {k : String} {v : α} {p : String × α} :
    ∀ {m : List (String × α)}, p ∈ upsertA m k v → p = (k, v) ∨ p ∈ m := by
  intro m
  induction m with
  | nil => intro h; simpa [upsertA] using h
  | cons q rest ih =>
    intro h
    obtain ⟨k₀, v₀⟩ := q
    by_cases hk : k₀ = k
    · subst hk
      have h' : p ∈ (k₀, v) :: rest := by simpa [upsertA] using h
      rcases List.mem_cons.mp h' with h'' | h''
      · exact Or.inl h''
      · exact Or.inr (List.mem_cons_of_mem _ h'')
    · have h' : p ∈ (k₀, v₀) :: upsertA rest k v := by simpa [upsertA, hk] using h
      rcases List.mem_cons.mp h' with h'' | h''
      · exact Or.inr (by simp [h''])
      · rcases ih h'' with h₃ | h₃
        · exact Or.inl h₃
        · exact Or.inr (List.mem_cons_of_mem _ h₃)

theorem upsertA_ne_nil {α : Type} (m : List (String × α)) (k : String) (v : α) :
    upsertA m k v ≠ [] := by
  cases m with
  | nil => simp [upsertA]
  | cons q rest =>
    obtain ⟨k₀, v₀⟩ := q
    by_cases hk : k₀ = k <;> simp [upsertA, hk]

theorem lookupA_mem {α : Type} {k : String} {v : α} :
    ∀ {m : List (String × α)}, lookupA m k = some v → (k, v) ∈ m := by
  intro m
  induction m with
  | nil => intro h; simp [lookupA] at h
  | cons q rest ih =>
    intro h
    obtain ⟨k₀, v₀⟩ := q
    by_cases hk : k₀ = k
    · subst hk
      have h' : v₀ = v := by simpa [lookupA] using h
      subst h'; exact List.mem_cons_self _ _
    · have h' : lookupA rest k = some v := by simpa [lookupA, hk] using h
      exact List.mem_cons_of_mem _ (ih h')

theorem charsStart_append (p s : List Char) : charsStart p (p ++ s) = true := by
  induction p with
  | nil => simp [charsStart]
  | cons c cs ih => simp [charsStart, ih]

theorem toVName_vnameToTicket (v : String) : toVName (vnameToTicket v) = .ok v := by
  have hdata : (vnameToTicket v).data = ticketScheme.data ++ v.data := rfl
  have hlen : ticketScheme.data.length = 8 := rfl
  unfold toVName
  rw [hdata, charsStart_append, ← hlen, List.drop_left]
  rfl

theorem parseTickets_ok_mem :
    ∀ {ts vs : List String}, parseTickets ts = .ok vs →
      ∀ {t v : String}, (t, v) ∈ ts.zip vs → toVName t = .ok v := by
  intro ts
  induction ts with
  | nil => intro vs h t v hm; simp [parseTickets] at h; subst h; simp at hm
  | cons t₀ rest ih =>
    intro vs h t v hm
    unfold parseTickets at h
    cases h₀ : toVName t₀ with
    | error e => rw [h₀] at h; exact absurd h (by simp)
    | ok v₀ =>
      rw [h₀] at h
      cases h₁ : parseTickets rest with
      | error e => rw [h₁] at h; exact absurd h (by simp)
      | ok vs₀ =>
        rw [h₁] at h
        simp only [Except.ok.injEq] at h
        subst h
        simp only [List.zip_cons_cons, List.mem_cons, Prod.mk.injEq] at hm
        rcases hm with ⟨h₂, h₃⟩ | hm
        · subst h₂; subst h₃; exact h₀
        · exact ih h₁ hm

theorem parseTickets_length :
    ∀ {ts vs : List String}, parseTickets ts = .ok vs → vs.length = ts.length := by
  intro ts
  induction ts with
  | nil => intro vs h; simp [parseTickets] at h; subst h; rfl
  | cons t₀ rest ih =>
    intro vs h
    unfold parseTickets at h
    cases h₀ : toVName t₀ with
    | error e => rw [h₀] at h; exact absurd h (by simp)
    | ok v₀ =>
      rw [h₀] at h
      cases h₁ : parseTickets rest with
      | error e => rw [h₁] at h; exact absurd h (by simp)
      | ok vs₀ =>
        rw [h₁] at h
        simp only [Except.ok.injEq] at h
        subst h
        simp [ih h₁]

theorem parseTickets_error_of_mem :
    ∀ {ts : List String} {t e : String}, t ∈ ts → toVName t = .error e →
      ∃ e', parseTickets ts = .error e' := by
  intro ts
  induction ts with
  | nil => intro t e h; simp at h
  | cons t₀ rest ih =>
    intro t e hm he
    rcases List.mem_cons.mp hm with h | h
    · subst h
      exact ⟨e, by unfold parseTickets; rw [he]⟩
    · cases h₀ : toVName t₀ with
      | error e₀ => exact ⟨e₀, by unfold parseTickets; rw [h₀]⟩
      | ok v₀ =>
        obtain ⟨e', he'⟩ := ih h he
        exact ⟨e', by unfold parseTickets; rw [h₀, he']⟩

theorem nodesFold_lookup (s : Store) (fltr : List String) :
    ∀ (pairs : List (String × String)) (acc : List (String × NodeInfo)) (t v : String),
      toVName t = .ok v → (∀ tv ∈ pairs, toVName tv.1 = .ok tv.2) →
      lookupA (pairs.foldl (nodesStep s fltr) acc) t =
        if t ∈ pairs.map Prod.fst ∧ 0 < (nodeInfoFor s fltr v).length
        then some ⟨nodeInfoFor s fltr v⟩
        else lookupA acc t := by
  intro pairs
  induction pairs with
  | nil => intro acc t v _ _; simp
  | cons p rest ih =>
    intro acc t v hv hall
    obtain ⟨t₁, v₁⟩ := p
    have h₁ : toVName t₁ = .ok v₁ := hall _ (List.mem_cons_self _ _)
    have hrest : ∀ tv ∈ rest, toVName tv.1 = .ok tv.2 := fun tv htv =>
      hall tv (List.mem_cons_of_mem _ htv)
    simp only [List.foldl_cons]
    rw [ih (nodesStep s fltr acc (t₁, v₁)) t v hv hrest]
    by_cases heq : t₁ = t
    · subst heq
      have hv1 : v₁ = v := by
        have := h₁.symm.trans hv
        simpa using this
      subst hv1
      by_cases hpos : 0 < (nodeInfoFor s fltr v₁).length
      · by_cases hmem : t₁ ∈ List.map Prod.fst rest
        · simp [nodesStep, hpos, hmem]
        · simp [nodesStep, hpos, hmem, lookupA_upsertA]
      · simp [nodesStep, hpos]
    · have hne : ¬ t = t₁ := fun hh => heq hh.symm
      have hmemc : (t ∈ t₁ :: List.map Prod.fst rest) ↔ t ∈ List.map Prod.fst rest := by
        simp [hne]
      by_cases hpos1 : 0 < (nodeInfoFor s fltr v₁).length
      · simp only [nodesStep, if_pos hpos1, lookupA_upsertA, if_neg heq, List.map_cons, hmemc]
      · simp only [nodesStep, if_neg hpos1, List.map_cons, hmemc]

theorem Nodes_lookup (s : Store) (req : NodesRequest) (reply : NodesReply)
    (hok : (Nodes s req).1 = .ok reply) (t v : String)
    (ht : t ∈ req.tickets) (hv : toVName t = .ok v) :
    lookupA reply.nodes t =
      if 0 < (nodeInfoFor s req.filter v).length then some ⟨nodeInfoFor s req.filter v⟩
      else none := by
  unfold Nodes at hok
  cases hp : parseTickets req.tickets with
  | error e => rw [hp] at hok; simp at hok
  | ok names =>
    rw [hp] at hok
    simp only [Except.ok.injEq] at hok
    subst hok
    rw [nodesFold_lookup s req.filter _ [] t v hv (fun tv htv => parseTickets_ok_mem hp htv)]
    have hmap : (req.tickets.zip names).map Prod.fst = req.tickets :=
      List.map_fst_zip _ _ (le_of_eq (parseTickets_length hp).symm)
    rw [hmap]
    by_cases hpos : 0 < (nodeInfoFor s req.filter v).length
    · simp [ht, hpos]
    · simp [ht, hpos, lookupA]

theorem collect_lookup_isSome (patterns : List String) :
    ∀ (es : List Entry) (acc : List (String × String)) (n : String),
      (lookupA (es.foldl (factsStep patterns) acc) n).isSome = true
        ↔ (∃ e ∈ es, (patterns.isEmpty || matchesAny e.factName patterns) = true ∧
              e.factName = n)
          ∨ (lookupA acc n).isSome = true := by
  intro es
  induction es with
  | nil => intro acc n; simp
  | cons e rest ih =>
    intro acc n
    simp only [List.foldl_cons]
    rw [ih]
    by_cases hr : (patterns.isEmpty || matchesAny e.factName patterns) = true
    · by_cases hn : e.factName = n
      · simp only [factsStep, if_pos hr]
        constructor
        · intro _; exact Or.inl ⟨e, List.mem_cons_self _ _, hr, hn⟩
        · intro _
          refine Or.inr ?_
          rw [lookupA_upsertA, if_pos hn]
          rfl
      · simp only [factsStep, if_pos hr, lookupA_upsertA, if_neg hn]
        constructor
        · rintro (h | h)
          · exact Or.inl ⟨h.choose, List.mem_cons_of_mem _ h.choose_spec.1, h.choose_spec.2⟩
          · exact Or.inr h
        · rintro (⟨e', he', hret, hname⟩ | h)
          · rcases List.mem_cons.mp he' with h' | h'
            · subst h'; exact absurd hname hn
            · exact Or.inl ⟨e', h', hret, hname⟩
          · exact Or.inr h
    · simp only [factsStep, if_neg hr]
      constructor
      · rintro (h | h)
        · exact Or.inl ⟨h.choose, List.mem_cons_of_mem _ h.choose_spec.1, h.choose_spec.2⟩
        · exact Or.inr h
      · rintro (⟨e', he', hret, hname⟩ | h)
        · rcases List.mem_cons.mp he' with h' | h'
          · subst h'; exact absurd hret hr
          · exact Or.inl ⟨e', h', hret, hname⟩
        · exact Or.inr h

theorem collect_mem (patterns : List String) :
    ∀ (es : List Entry) (acc : List (String × String)) (p : String × String),
      p ∈ es.foldl (factsStep patterns) acc →
      p ∈ acc ∨ ∃ e ∈ es, (patterns.isEmpty || matchesAny e.factName patterns) = true ∧
        e.factName = p.1 ∧ e.factValue = p.2 := by
  intro es
  induction es with
  | nil => intro acc p h; exact Or.inl h
  | cons e rest ih =>
    intro acc p h
    simp only [List.foldl_cons] at h
    rcases ih _ _ h with h' | ⟨e', he', hret, hname, hval⟩
    · by_cases hr : (patterns.isEmpty || matchesAny e.factName patterns) = true
      · simp only [factsStep, if_pos hr] at h'
        rcases mem_upsertA h' with h'' | h''
        · exact Or.inr ⟨e, List.mem_cons_self _ _, hr, by simp [h''], by simp [h'']⟩
        · exact Or.inl h''
      · simp only [factsStep, if_neg hr] at h'
        exact Or.inl h'
    · exact Or.inr ⟨e', List.mem_cons_of_mem _ he', hret, hname, hval⟩

theorem collect_eq_nil (patterns : List String) :
    ∀ (es : List Entry) (acc : List (String × String)),
      es.foldl (factsStep patterns) acc = [] ↔
        acc = [] ∧ ∀ e ∈ es, (patterns.isEmpty || matchesAny e.factName patterns) = false := by
  intro es
  induction es with
  | nil => intro acc; simp
  | cons e rest ih =>
    intro acc
    simp only [List.foldl_cons]
    rw [ih]
    by_cases hr : (patterns.isEmpty || matchesAny e.factName patterns) = true
    · simp only [factsStep, if_pos hr]
      constructor
      · rintro ⟨habs, _⟩
        exact absurd habs (upsertA_ne_nil _ _ _)
      · rintro ⟨hacc, hall⟩
        have := hall e (List.mem_cons_self _ _)
        rw [hr] at this
        exact absurd this (by simp)
    · simp only [factsStep, if_neg hr]
      have hrf : (patterns.isEmpty || matchesAny e.factName patterns) = false :=
        Bool.eq_false_iff.mpr hr
      constructor
      · rintro ⟨hacc, hall⟩
        refine ⟨hacc, fun e' he' => ?_⟩
        rcases List.mem_cons.mp he' with h' | h'
        · subst h'; exact hrf
        · exact hall e' h'
      · rintro ⟨hacc, hall⟩
        exact ⟨hacc, fun e' he' => hall e' (List.mem_cons_of_mem _ he')⟩

/-- C3: the `Nodes` query with an empty filter returns, for each ticket whose
node has at least one fact, all of that node's facts; with a non-empty filter
it returns only the facts whose names match some pattern, and omits every
ticket with zero matching facts. -/
theorem claim_C3_nodes_filtering (s : Store) (req : NodesRequest) (reply : NodesReply)
    (hok : (Nodes s req).1 = .ok reply)
    (t v : String) (ht : t ∈ req.tickets) (hv : toVName t = .ok v) :
    (req.filter = [] →
       (((lookupA reply.nodes t).isSome = true ↔ readEntries s v "" ≠ []) ∧
        ∀ info, lookupA reply.nodes t = some info →
          ((∀ n, (∃ e ∈ readEntries s v "", e.factName = n) ↔
              (lookupA info.facts n).isSome = true) ∧
           ∀ nv ∈ info.facts, ∃ e ∈ readEntries s v "",
             e.factName = nv.1 ∧ e.factValue = nv.2))) ∧
    (req.filter ≠ [] →
       (((lookupA reply.nodes t).isSome = true ↔
           ∃ e ∈ readEntries s v "", matchesAny e.factName req.filter = true) ∧
        ∀ info, lookupA reply.nodes t = some info →
          ∀ nv ∈ info.facts, matchesAny nv.1 req.filter = true ∧
            ∃ e ∈ readEntries s v "", e.factName = nv.1 ∧ e.factValue = nv.2)) := by
  have hlk := Nodes_lookup s req reply hok t v ht hv
  have hnilbase := collect_eq_nil req.filter (readEntries s v "") []
  have hpos_iff : 0 < (nodeInfoFor s req.filter v).length ↔
      ¬ (∀ e ∈ readEntries s v "",
          (req.filter.isEmpty || matchesAny e.factName req.filter) = false) := by
    rw [List.length_pos_iff_ne_nil]
    show ¬ _ = _ ↔ _
    unfold nodeInfoFor collectFacts
    constructor
    · intro hne hall
      exact hne (hnilbase.mpr ⟨rfl, hall⟩)
    · intro hna hnl
      exact hna (hnilbase.mp hnl).2
  constructor
  · intro hf
    have hfe : req.filter.isEmpty = true := by rw [hf]; rfl
    constructor
    · rw [hlk]
      by_cases hpos : 0 < (nodeInfoFor s req.filter v).length
      · simp only [if_pos hpos, Option.isSome_some, true_iff]
        intro hnil
        rw [hpos_iff] at hpos
        exact hpos (by rw [hnil]; simp)
      · simp only [if_neg hpos, Option.isSome_none, Bool.false_eq_true, false_iff]
        rw [hpos_iff] at hpos
        push_neg at hpos
        intro hne
        rcases List.exists_mem_of_ne_nil _ hne with ⟨e, he⟩
        have := hpos e he
        rw [hfe] at this
        exact absurd this (by simp)
    · intro info hinfo
      rw [hlk] at hinfo
      by_cases hpos : 0 < (nodeInfoFor s req.filter v).length
      · rw [if_pos hpos] at hinfo
        have hinfo' : info = ⟨nodeInfoFor s req.filter v⟩ := by
          injection hinfo with h; exact h.symm
        subst hinfo'
        constructor
        · intro n
          show _ ↔ (lookupA (nodeInfoFor s req.filter v) n).isSome = true
          unfold nodeInfoFor collectFacts
          rw [collect_lookup_isSome]
          simp [lookupA, hfe]
        · intro nv hnv
          have hnv' : nv ∈ (readEntries s v "").foldl (factsStep req.filter) [] := hnv
          rcases collect_mem req.filter _ _ _ hnv' with h | ⟨e, he, _, hn, hval⟩
          · simp at h
          · exact ⟨e, he, hn, hval⟩
      · rw [if_neg hpos] at hinfo
        exact absurd hinfo (by simp)
  · intro hf
    have hne : req.filter.isEmpty = false := by
      cases hfe : req.filter with
      | nil => exact absurd hfe hf
      | cons a as => rfl
    constructor
    · rw [hlk]
      by_cases hpos : 0 < (nodeInfoFor s req.filter v).length
      · simp only [if_pos hpos, Option.isSome_some, true_iff]
        rw [hpos_iff] at hpos
        push_neg at hpos
        rcases hpos with ⟨e, he, hret⟩
        refine ⟨e, he, ?_⟩
        rcases Bool.eq_false_or_eq_true (matchesAny e.factName req.filter) with h | h
        · exact h
        · exact absurd (by simp [hne, h]) hret
      · simp only [if_neg hpos, Option.isSome_none, Bool.false_eq_true, false_iff]
        rw [hpos_iff] at hpos
        push_neg at hpos
        rintro ⟨e, he, hm⟩
        have := hpos e he
        rw [hne, hm] at this
        exact absurd this (by simp)
    · intro info hinfo
      rw [hlk] at hinfo
      by_cases hpos : 0 < (nodeInfoFor s req.filter v).length
      · rw [if_pos hpos] at hinfo
        have hinfo' : info = ⟨nodeInfoFor s req.filter v⟩ := by
          injection hinfo with h; exact h.symm
        subst hinfo'
        intro nv hnv
        have hnv' : nv ∈ (readEntries s v "").foldl (factsStep req.filter) [] := hnv
        rcases collect_mem req.filter _ _ _ hnv' with h | ⟨e, he, hret, hn, hval⟩
        · simp at h
        · rw [hne] at hret
          simp only [Bool.false_or] at hret
          exact ⟨by rw [← hn]; exact hret, e, he, hn, hval⟩
      · rw [if_neg hpos] at hinfo
        exact absurd hinfo (by simp)

/-- Witness for C3 at the concrete S3-style store, both for the empty and the
non-empty filter. -/
theorem claim_C3_nodes_filtering_witness :
    ((Nodes c3store c3reqAll).1 = .ok c3replyAll ∧
     (Nodes c3store c3reqFiltered).1 = .ok c3replyFiltered) ∧
    ((lookupA c3replyAll.nodes "kythe://t").isSome = true ↔ readEntries c3store "t" "" ≠ []) ∧
    ((lookupA c3replyFiltered.nodes "kythe://t").isSome = true ↔
      ∃ e ∈ readEntries c3store "t" "", matchesAny e.factName c3reqFiltered.filter = true) :=
  ⟨⟨by decide, by decide⟩,
   (((claim_C3_nodes_filtering c3store c3reqAll c3replyAll (by decide) "kythe://t" "t"
        (by decide) (by decide)).1 rfl).1),
   (((claim_C3_nodes_filtering c3store c3reqFiltered c3replyFiltered (by decide) "kythe://t" "t"
        (by decide) (by decide)).2 (by decide)).1)⟩

theorem updateA_ne_nil {α : Type} (m : List (String × α)) (k : String) (d : α) (f : α → α) :
    updateA m k d f ≠ [] := by
  cases m with
  | nil => simp [updateA]
  | cons q rest =>
    obtain ⟨k₀, v₀⟩ := q
    by_cases hk : k₀ = k <;> simp [updateA, hk]

theorem edgeKindAllowed_iff (kinds : List String) (e : Entry) :
    edgeKindAllowed kinds e = true ↔
      kinds = [] ∨ (parseOrdinal e.edgeKind).1 ∈ kinds := by
  unfold edgeKindAllowed
  cases kinds with
  | nil => simp
  | cons k ks => simp

theorem edgesFold_fst_eq_nil (kinds fltr : List String) :
    ∀ (es : List Entry) (acc : FilteredEdges × List (String × String)),
      (es.foldl (edgesStep kinds fltr) acc).1 = [] ↔
        acc.1 = [] ∧ ∀ e ∈ es, ¬(e.edgeKind ≠ "" ∧ edgeKindAllowed kinds e = true) := by
  intro es
  induction es with
  | nil => intro acc; simp
  | cons e rest ih =>
    intro acc
    simp only [List.foldl_cons]
    rw [ih]
    by_cases hek : e.edgeKind = ""
    · simp only [edgesStep, if_pos hek]
      constructor
      · rintro ⟨h1, h2⟩
        refine ⟨h1, fun e' he' => ?_⟩
        rcases List.mem_cons.mp he' with h' | h'
        · subst h'; rintro ⟨habs, _⟩; exact habs hek
        · exact h2 e' h'
      · rintro ⟨h1, h2⟩
        exact ⟨h1, fun e' he' => h2 e' (List.mem_cons_of_mem _ he')⟩
    · by_cases hal : edgeKindAllowed kinds e = true
      · simp only [edgesStep, if_neg hek, if_pos hal]
        constructor
        · rintro ⟨habs, _⟩
          exact absurd habs (updateA_ne_nil _ _ _ _)
        · rintro ⟨_, hall⟩
          exact absurd ⟨hek, hal⟩ (hall e (List.mem_cons_self _ _))
      · simp only [edgesStep, if_neg hek, if_neg hal]
        constructor
        · rintro ⟨h1, h2⟩
          refine ⟨h1, fun e' he' => ?_⟩
          rcases List.mem_cons.mp he' with h' | h'
          · subst h'; rintro ⟨_, habs⟩; exact hal habs
          · exact h2 e' h'
        · rintro ⟨h1, h2⟩
          exact ⟨h1, fun e' he' => h2 e' (List.mem_cons_of_mem _ he')⟩

theorem edgesLoop_lookup (s : Store) (kinds fltr : List String) (t v : String)
    (hv : toVName t = .ok v) :
    ∀ (ts : List String) (es : List (String × EdgeSet)) (nm : List (String × NodeInfo))
      (tset : List String) (calls : Nat)
      (out : List (String × EdgeSet) × List (String × NodeInfo) × List String) (n : Nat),
      edgesLoop s kinds fltr ts es nm tset calls = (.ok out, n) →
      lookupA out.1 t =
        if t ∈ ts ∧ feOf s kinds fltr v ≠ []
        then some ⟨groupsOf (feOf s kinds fltr v)⟩ else lookupA es t := by
  intro ts
  induction ts with
  | nil =>
    intro es nm tset calls out n h
    simp only [edgesLoop, Prod.mk.injEq] at h
    obtain ⟨h1, _⟩ := h
    injection h1 with h1'
    subst h1'
    simp
  | cons t₁ rest ih =>
    intro es nm tset calls out n h
    cases h₁ : toVName t₁ with
    | error e =>
      simp only [edgesLoop, h₁] at h
      simp at h
    | ok v₁ =>
      simp only [edgesLoop, h₁] at h
      split at h
      · -- feff.1 is empty for t₁
        rw [ih _ _ _ _ _ _ h]
        by_cases heq : t₁ = t
        · subst heq
          have hv1 : v₁ = v := by
            have := h₁.symm.trans hv
            simpa using this
          subst hv1
          rename_i hempty
          have hfe : feOf s kinds fltr v₁ = [] := by
            have := List.isEmpty_iff.mp hempty
            exact this
          simp [hfe]
        · have hne : ¬ t = t₁ := fun hh => heq hh.symm
          simp [hne]
      · -- feff.1 nonempty for t₁: an EdgeSet was inserted
        rw [ih _ _ _ _ _ _ h]
        rename_i hempty
        have hfe1 : feOf s kinds fltr v₁ ≠ [] := by
          intro habs
          simp only [feOf] at habs
          rw [habs] at hempty
          simp at hempty
        have hfe1' : (List.foldl (edgesStep kinds fltr) ([], []) (readEntries s v₁ "*")).1 ≠ [] := by
          simpa [feOf] using hfe1
        by_cases heq : t₁ = t
        · subst heq
          have hv1 : v₁ = v := by
            have := h₁.symm.trans hv
            simpa using this
          subst hv1
          by_cases hmem : t₁ ∈ rest
          · simp [hmem, hfe1, lookupA_upsertA, feOf, hfe1']
          · simp [hmem, hfe1, lookupA_upsertA, feOf, hfe1']
        · have hne : ¬ t = t₁ := fun hh => heq hh.symm
          rw [lookupA_upsertA]
          simp [hne, heq]

/-- C7: the `Edges` reply maps a source ticket to an `EdgeSet` iff at least
one of the source's edge entries has a parsed base kind in the allow-list (or
the allow-list is empty); a source with no retained edges never gets an
`EdgeSet`, even if it has facts matching the fact filter. -/
theorem claim_C7_edgeset_iff (s : Store) (req : EdgesRequest) (reply : EdgesReply)
    (hok : (Edges s req).1 = .ok reply) (t v : String)
    (ht : t ∈ req.tickets) (hv : toVName t = .ok v) :
    (lookupA reply.edgeSets t).isSome = true ↔
      ∃ e ∈ readEntries s v "*", e.edgeKind ≠ "" ∧
        (req.kinds = [] ∨ (parseOrdinal e.edgeKind).1 ∈ req.kinds) := by
  unfold Edges at hok
  split at hok
  · exact absurd hok (by simp)
  · split at hok
    · exact absurd hok (by simp)
    · -- the main loop ran
      cases hloop : edgesLoop s req.kinds req.filter req.tickets [] [] [] 0 with
      | _ fst snd =>
        rw [hloop] at hok
        cases fst with
        | error e => exact absurd hok (by simp)
        | ok out =>
          obtain ⟨es, nm, tset⟩ := out
          have hlk := edgesLoop_lookup s req.kinds req.filter t v hv req.tickets
            [] [] [] 0 (es, nm, tset) snd hloop
          have hsets : reply.edgeSets = es := by
            simp only at hok
            split at hok
            · cases hnr : Nodes s ⟨nm.foldl (fun acc kv => removeStr acc kv.1) tset,
                  req.filter⟩ with
              | _ nfst nsnd =>
                rw [hnr] at hok
                cases nfst with
                | error e => exact absurd hok (by simp)
                | ok nr =>
                  simp only [Except.ok.injEq] at hok
                  rw [← hok]
            · simp only [Except.ok.injEq] at hok
              rw [← hok]
          rw [hsets, hlk]
          have hchar : feOf s req.kinds req.filter v = [] ↔
              ∀ e ∈ readEntries s v "*",
                ¬(e.edgeKind ≠ "" ∧ edgeKindAllowed req.kinds e = true) := by
            unfold feOf
            rw [edgesFold_fst_eq_nil]
            simp
          by_cases hfe : feOf s req.kinds req.filter v = []
          · rw [if_neg (by simp [hfe])]
            simp only [lookupA, Option.isSome_none, Bool.false_eq_true, false_iff]
            rw [hchar] at hfe
            rintro ⟨e, he, hek, hal⟩
            exact (hfe e he) ⟨hek, (edgeKindAllowed_iff req.kinds e).mpr hal⟩
          · rw [if_pos ⟨ht, hfe⟩]
            simp only [Option.isSome_some, true_iff]
            have hnall : ¬ ∀ e ∈ readEntries s v "*",
                ¬(e.edgeKind ≠ "" ∧ edgeKindAllowed req.kinds e = true) := by
              intro hall; exact hfe (hchar.mpr hall)
            push_neg at hnall
            rcases hnall with ⟨e, he, hcond⟩
            exact ⟨e, he, hcond.1, (edgeKindAllowed_iff req.kinds e).mp hcond.2⟩

/-- Witness for C7: a node with matching facts but no edges gets no
`EdgeSet`. -/
theorem claim_C7_edgeset_iff_witness :
    (Edges c7store c7req).1 = .ok c7reply ∧
    ((lookupA c7reply.edgeSets "kythe://n").isSome = true ↔
      ∃ e ∈ readEntries c7store "n" "*", e.edgeKind ≠ "" ∧
        (c7req.kinds = [] ∨ (parseOrdinal e.edgeKind).1 ∈ c7req.kinds)) :=
  ⟨by decide,
   claim_C7_edgeset_iff c7store c7req c7reply (by decide) "kythe://n" "n"
     (by decide) (by decide)⟩

theorem edgesLoop_error_of_bad (s : Store) (kinds fltr : List String) :
    ∀ (ts : List String) (es : List (String × EdgeSet)) (nm : List (String × NodeInfo))
      (tset : List String) (calls : Nat),
      (∃ t ∈ ts, isErrE (toVName t)) →
      ∃ e n, edgesLoop s kinds fltr ts es nm tset calls = (.error e, n) := by
  intro ts
  induction ts with
  | nil => intro es nm tset calls h; simp at h
  | cons t₁ rest ih =>
    intro es nm tset calls h
    obtain ⟨t, ht, e, he⟩ := h
    rcases List.mem_cons.mp ht with h' | h'
    · subst h'
      exact ⟨"invalid ticket " ++ t, calls, by simp [edgesLoop, he]⟩
    · cases h₁ : toVName t₁ with
      | error e₁ => exact ⟨"invalid ticket " ++ t₁, calls, by simp [edgesLoop, h₁]⟩
      | ok v₁ =>
        simp only [edgesLoop, h₁]
        split
        · exact ih _ _ _ _ ⟨t, h', e, he⟩
        · exact ih _ _ _ _ ⟨t, h', e, he⟩

theorem edges_error_of_badTicket (s : Store) (req : EdgesRequest)
    (hbad : ∃ t ∈ req.tickets, isErrE (toVName t)) : isErrE (Edges s req).1 := by
  unfold Edges
  by_cases h1 : req.tickets.isEmpty = true
  · simp [h1, isErrE]
  · by_cases h2 : req.pageToken = ""
    · obtain ⟨e, n, heq⟩ :=
        edgesLoop_error_of_bad s req.kinds req.filter req.tickets [] [] [] 0 hbad
      simp [h1, h2, heq, isErrE]
    · simp [h1, h2, isErrE]

/-- C4 (as amended): every listed invalid-request shape yields an error; the
shapes checked before any per-ticket processing (dirty buffer, missing
location, empty ticket list, non-empty page token, malformed tickets in
`Nodes` or in the `Decorations` location) also make no store call; a
malformed ticket in `Edges` or `CrossReferences` still yields an error,
though Reads for earlier well-formed tickets may already have happened. -/
theorem claim_C4_invalid_requests (s : Store) :
    (∀ req : DecorationsRequest, req.dirtyBuffer ≠ "" →
        isErrE (Decorations s req).1 ∧ (Decorations s req).2 = 0) ∧
    (∀ req : DecorationsRequest, req.location = none →
        isErrE (Decorations s req).1 ∧ (Decorations s req).2 = 0) ∧
    (∀ (req : DecorationsRequest) (rloc : Location), req.location = some rloc →
        isErrE (toVName rloc.ticket) →
        isErrE (Decorations s req).1 ∧ (Decorations s req).2 = 0) ∧
    (∀ req : EdgesRequest, req.tickets = [] →
        isErrE (Edges s req).1 ∧ (Edges s req).2 = 0) ∧
    (∀ req : EdgesRequest, req.pageToken ≠ "" →
        isErrE (Edges s req).1 ∧ (Edges s req).2 = 0) ∧
    (∀ req : NodesRequest, (∃ t ∈ req.tickets, isErrE (toVName t)) →
        isErrE (Nodes s req).1 ∧ (Nodes s req).2 = 0) ∧
    (∀ req : CrossReferencesRequest, req.tickets = [] →
        (CrossReferences s req).1 = some (.error "no cross-references requested") ∧
        (CrossReferences s req).2 = 0) ∧
    (∀ req : EdgesRequest, (∃ t ∈ req.tickets, isErrE (toVName t)) →
        isErrE (Edges s req).1) ∧
    (∀ req : CrossReferencesRequest, req.tickets ≠ [] →
        (∃ t ∈ req.tickets, isErrE (toVName t)) →
        ∃ e, (CrossReferences s req).1 = some (.error e)) := by
  refine ⟨?_, ?_, ?_, ?_, ?_, ?_, ?_, ?_, ?_⟩
  · intro req hd
    simp [Decorations, hd, isErrE]
  · intro req hl
    by_cases hd : req.dirtyBuffer ≠ ""
    · simp [Decorations, hd, isErrE]
    · simp [Decorations, hd, hl, isErrE]
  · intro req rloc hl hbad
    obtain ⟨e, he⟩ := hbad
    by_cases hd : req.dirtyBuffer ≠ ""
    · simp [Decorations, hd, isErrE]
    · simp [Decorations, hd, hl, he, isErrE]
  · intro req ht
    simp [Edges, ht, isErrE]
  · intro req hp
    by_cases h1 : req.tickets.isEmpty = true
    · simp [Edges, h1, isErrE]
    · simp [Edges, h1, hp, isErrE]
  · intro req hbad
    obtain ⟨t, ht, e, he⟩ := hbad
    obtain ⟨e', he'⟩ := parseTickets_error_of_mem ht he
    simp [Nodes, he', isErrE]
  · intro req ht
    simp [CrossReferences, ht]
  · intro req hbad
    exact edges_error_of_badTicket s req hbad
  · intro req hne hbad
    have hnemp : req.tickets.isEmpty = false := by
      cases h : req.tickets with
      | nil => exact absurd h hne
      | cons a as => rfl
    have hE := edges_error_of_badTicket s
      ⟨req.tickets, [], [],
       (if req.pageSize = 0 then defaultXRefPageSize else req.pageSize), req.pageToken⟩
      (by simpa using hbad)
    obtain ⟨e, he⟩ := hE
    cases hEq : Edges s
        ⟨req.tickets, [], [],
         (if req.pageSize = 0 then defaultXRefPageSize else req.pageSize),
         req.pageToken⟩ with
    | _ f sn =>
      rw [hEq] at he
      simp only at he
      subst he
      exact ⟨e, by simp [CrossReferences, hnemp, hEq]⟩

/-- Counterexample for C4 as stated: an `Edges` request whose second ticket
is malformed returns an error only after one store Read was already made for
the first ticket. -/
theorem claim_C4_counterexample :
    isErrE (Edges emptyStore c4badEdgesReq).1 ∧
    (Edges emptyStore c4badEdgesReq).2 = 1 ∧ (Edges emptyStore c4badEdgesReq).2 ≠ 0 :=
  ⟨⟨"invalid ticket bad", by decide⟩, by decide, by decide⟩

/-- Witness for the amended C4 at concrete invalid requests of each listed
shape. -/
theorem claim_C4_invalid_requests_witness :
    (isErrE (Decorations emptyStore ⟨none, .withinSpan, "x", false, false, []⟩).1 ∧
     (Decorations emptyStore ⟨none, .withinSpan, "x", false, false, []⟩).2 = 0) ∧
    (isErrE (Edges emptyStore (⟨[], [], [], 0, ""⟩ : EdgesRequest)).1 ∧
     (Edges emptyStore (⟨[], [], [], 0, ""⟩ : EdgesRequest)).2 = 0) ∧
    (isErrE (Edges emptyStore (⟨["kythe://a"], [], [], 0, "tok"⟩ : EdgesRequest)).1 ∧
     (Edges emptyStore (⟨["kythe://a"], [], [], 0, "tok"⟩ : EdgesRequest)).2 = 0) ∧
    (isErrE (Nodes emptyStore (⟨["bad"], []⟩ : NodesRequest)).1 ∧
     (Nodes emptyStore (⟨["bad"], []⟩ : NodesRequest)).2 = 0) ∧
    ((CrossReferences emptyStore
        (⟨[], .allDefinitions, .allReferences, .allDocumentation, false, [], 0, ""⟩ :
          CrossReferencesRequest)).1 = some (.error "no cross-references requested") ∧
     (CrossReferences emptyStore
        (⟨[], .allDefinitions, .allReferences, .allDocumentation, false, [], 0, ""⟩ :
          CrossReferencesRequest)).2 = 0) ∧
    isErrE (Edges emptyStore c4badEdgesReq).1 ∧
    (∃ e, (CrossReferences emptyStore
        (⟨["kythe://g", "bad"], .allDefinitions, .allReferences, .allDocumentation,
          false, [], 0, ""⟩ : CrossReferencesRequest)).1 = some (.error e)) := by
  have H := claim_C4_invalid_requests emptyStore
  exact ⟨H.1 _ (by decide),
         H.2.2.2.1 _ rfl,
         H.2.2.2.2.1 _ (by decide),
         H.2.2.2.2.2.1 _ ⟨"bad", by decide, "invalid ticket: bad", by decide⟩,
         H.2.2.2.2.2.2.1 _ rfl,
         H.2.2.2.2.2.2.2.1 _ ⟨"bad", by decide, "invalid ticket: bad", by decide⟩,
         H.2.2.2.2.2.2.2.2 _ (by decide) ⟨"bad", by decide, "invalid ticket: bad", by decide⟩⟩

/-- Counterexample for C2 as stated: in a store whose first scanned edge is a
reverse edge, `EnsureReverseEdges` returns immediately, leaving a forward
edge without its reverse. -/
theorem claim_C2_counterexample :
    ((⟨"c", "/kythe/edge/ref", "/", "", "d"⟩ : Entry) ∈ c2store ∧
     isForwardKind "/kythe/edge/ref" = true) ∧
    reverseOf ⟨"c", "/kythe/edge/ref", "/", "", "d"⟩ ∉ EnsureReverseEdges c2store :=
  ⟨⟨by decide, by decide⟩, by decide⟩

/-- C2 (as amended): when the bootstrap actually runs — the first edge found
in scan order is forward and its mirror is absent — every forward edge
`(s, k, t, fn, fv)` of the store gains its reverse `(t, mirror k, s, fn, fv)`.
(As stated, the claim fails for stores where the single-edge sample is a
reverse edge or already mirrored: the bootstrap then writes nothing.) -/
theorem claim_C2_reverse_edges (s : Store) (e₀ : Entry)
    (hfind : s.find? IsEdge = some e₀)
    (hfwd : isReverseKind e₀.edgeKind = false)
    (hnorev : readEntries s e₀.target (mirrorKind e₀.edgeKind) = []) :
    ∀ e ∈ s, e.edgeKind ≠ "" → isForwardKind e.edgeKind = true →
      reverseOf e ∈ EnsureReverseEdges s := by
  intro e he hek hf
  unfold EnsureReverseEdges
  rw [hfind]
  simp only [hfwd, hnorev, Bool.false_eq_true, if_false, List.isEmpty_nil, if_true]
  exact List.mem_append_right _
    (List.mem_map_of_mem _ (List.mem_filter.mpr ⟨he, by simp [hek, hf]⟩))

/-- Witness for C2 (amended) on a one-edge store. -/
theorem claim_C2_reverse_edges_witness :
    (c2wstore.find? IsEdge = some ⟨"a", "/kythe/edge/childof", "/kythe/fact", "v", "f"⟩ ∧
     isReverseKind "/kythe/edge/childof" = false ∧
     readEntries c2wstore "f" (mirrorKind "/kythe/edge/childof") = []) ∧
    reverseOf ⟨"a", "/kythe/edge/childof", "/kythe/fact", "v", "f"⟩ ∈
      EnsureReverseEdges c2wstore :=
  ⟨⟨by decide, by decide, by decide⟩,
   claim_C2_reverse_edges c2wstore ⟨"a", "/kythe/edge/childof", "/kythe/fact", "v", "f"⟩
     (by decide) (by decide) (by decide) _ (by decide) (by decide) (by decide)⟩

theorem spanLE_of_less {a b : Reference} (h : spanLess a b = true) : spanLE a b := by
  unfold spanLess at h
  unfold spanLE
  by_cases h1 : a.anchorStart.byteOffset < b.anchorStart.byteOffset
  · exact Or.inl h1
  · rw [if_neg h1] at h
    by_cases h2 : a.anchorStart.byteOffset > b.anchorStart.byteOffset
    · rw [if_pos h2] at h; exact absurd h (by simp)
    · rw [if_neg h2] at h
      by_cases h3 : a.anchorEnd.byteOffset < b.anchorEnd.byteOffset
      · exact Or.inr ⟨by omega, by omega⟩
      · rw [if_neg h3] at h; exact absurd h (by simp)

theorem spanLE_of_not_less {a b : Reference} (h : spanLess a b = false) : spanLE b a := by
  unfold spanLess at h
  unfold spanLE
  by_cases h1 : a.anchorStart.byteOffset < b.anchorStart.byteOffset
  · rw [if_pos h1] at h; simp at h
  · by_cases h2 : a.anchorStart.byteOffset > b.anchorStart.byteOffset
    · exact Or.inl h2
    · rw [if_neg h1, if_neg h2] at h
      by_cases h3 : a.anchorEnd.byteOffset < b.anchorEnd.byteOffset
      · rw [if_pos h3] at h; simp at h
      · exact Or.inr ⟨by omega, by omega⟩

theorem insertBySpan_head_cases (r : Reference) (l : List Reference) :
    insertBySpan r l = r :: l ∨
    ∃ x xs, l = x :: xs ∧ insertBySpan r l = x :: insertBySpan r xs ∧ spanLess x r = true := by
  cases l with
  | nil => exact Or.inl rfl
  | cons x xs =>
    by_cases h : spanLess x r = true
    · exact Or.inr ⟨x, xs, rfl, by simp [insertBySpan, h], h⟩
    · left
      simp only [insertBySpan]
      rw [if_neg h]

theorem chain'_insertBySpan (r : Reference) :
    ∀ l : List Reference, l.Chain' spanLE → (insertBySpan r l).Chain' spanLE := by
  intro l
  induction l with
  | nil => intro _; simp [insertBySpan]
  | cons x xs ih =>
    intro h
    rcases List.chain'_cons'.mp h with ⟨hhead, htail⟩
    by_cases hless : spanLess x r = true
    · simp only [insertBySpan, if_pos hless]
      refine List.chain'_cons'.mpr ⟨?_, ih htail⟩
      intro y hy
      rcases insertBySpan_head_cases r xs with hcase | ⟨x', xs', hxs', heq, hl⟩
      · rw [hcase] at hy
        simp only [List.head?_cons, Option.mem_def, Option.some.injEq] at hy
        subst hy
        exact spanLE_of_less hless
      · rw [heq] at hy
        simp only [List.head?_cons, Option.mem_def, Option.some.injEq] at hy
        subst hy
        exact hhead x' (by rw [hxs']; rfl)
    · simp only [insertBySpan, if_neg hless]
      exact List.chain'_cons.mpr
        ⟨spanLE_of_not_less (Bool.eq_false_iff.mpr hless), h⟩

theorem chain'_sortBySpan : ∀ l : List Reference, (sortBySpan l).Chain' spanLE := by
  intro l
  induction l with
  | nil => simp [sortBySpan]
  | cons r rs ih => exact chain'_insertBySpan r _ ih

theorem mem_insertBySpan {a r : Reference} :
    ∀ {l : List Reference}, a ∈ insertBySpan r l ↔ a = r ∨ a ∈ l := by
  intro l
  induction l with
  | nil => simp [insertBySpan]
  | cons x xs ih =>
    by_cases h : spanLess x r = true
    · simp only [insertBySpan, if_pos h, List.mem_cons, ih]
      tauto
    · simp only [insertBySpan, if_neg h, List.mem_cons]

theorem mem_sortBySpan {a : Reference} :
    ∀ {l : List Reference}, a ∈ sortBySpan l ↔ a ∈ l := by
  intro l
  induction l with
  | nil => simp [sortBySpan]
  | cons r rs ih => simp [sortBySpan, mem_insertBySpan, ih]

/-- C5: in every `Decorations` reply the references are non-strictly
increasing by `(anchorStart.byte, anchorEnd.byte)`: between adjacent
references, either the start offset grows, or it ties and the end offset does
not shrink. -/
theorem claim_C5_references_sorted (s : Store) (req : DecorationsRequest)
    (reply : DecorationsReply) (hok : (Decorations s req).1 = .ok reply) :
    reply.reference.Chain' spanLE := by
  simp only [Decorations] at hok
  split at hok
  · simp at hok
  · split at hok
    · simp at hok
    · split at hok
      · simp at hok
      · split at hok
        · simp at hok
        · split at hok
          · simp at hok
          · split at hok
            · -- references requested
              split at hok
              · simp at hok
              · split at hok
                · split at hok
                  · simp at hok
                  · simp only at hok
                    injection hok with h
                    rw [← h]
                    exact chain'_sortBySpan _
                · simp only at hok
                  injection hok with h
                  rw [← h]
                  exact chain'_sortBySpan _
            · simp only at hok
              injection hok with h
              rw [← h]
              simp

/-- Witness for C5 on a file whose two anchors arrive in reverse span
order. -/
theorem claim_C5_references_sorted_witness :
    (Decorations c5store c5req).1 = .ok c5reply ∧ c5reply.reference.Chain' spanLE :=
  ⟨by decide, claim_C5_references_sorted c5store c5req c5reply (by decide)⟩

theorem sourceTextFold_snd :
    ∀ (es : List Entry) (acc : Option String × String),
      (∀ e ∈ es, e.factName = factTextEncoding → e.factValue = "") → acc.2 = "" →
      (es.foldl sourceTextStep acc).2 = "" := by
  intro es
  induction es with
  | nil => intro acc _ hacc; exact hacc
  | cons e rest ih =>
    intro acc hall hacc
    simp only [List.foldl_cons]
    refine ih _ (fun e' he' => hall e' (List.mem_cons_of_mem _ he')) ?_
    by_cases h1 : e.factName = factText
    · simpa [sourceTextStep, h1] using hacc
    · by_cases h2 : e.factName = factTextEncoding
      · simp only [sourceTextStep, if_neg h1, if_pos h2]
        exact hall e (List.mem_cons_self _ _) h2
      · simpa [sourceTextStep, h1, h2] using hacc

theorem getSourceText_encoding (s : Store) (fileV text enc : String) (n : Nat)
    (heq : getSourceText s fileV = (.ok (text, enc), n))
    (hno : ∀ e ∈ readEntries s fileV "", e.factName = factTextEncoding → e.factValue = "") :
    enc = "" := by
  have hsnd := sourceTextFold_snd (readEntries s fileV "") (none, "") hno rfl
  simp only [getSourceText] at heq
  split at heq
  · simp at heq
  · simp only [Prod.mk.injEq, Except.ok.injEq] at heq
    obtain ⟨⟨_, henc⟩, _⟩ := heq
    rw [← henc]
    exact hsnd

/-- C6 (as amended): the `Decorations` reply's encoding is the raw value of
the file's `text/encoding` fact; in particular it is the empty string — not
`"UTF-8"` — whenever that fact is empty or absent.  (The `UTF-8` default is
only the fact schema's documented implicit reading of the empty value; the
code never materializes it in the reply.) -/
theorem claim_C6_default_encoding (s : Store) (req : DecorationsRequest) (rloc : Location)
    (fileV : String) (reply : DecorationsReply)
    (hl : req.location = some rloc)
    (hv : toVName rloc.ticket = .ok fileV)
    (_hst : req.sourceText = true)
    (hnoenc : ∀ e ∈ readEntries s fileV "", e.factName = factTextEncoding → e.factValue = "")
    (hok : (Decorations s req).1 = .ok reply) :
    reply.encoding = "" := by
  simp only [Decorations] at hok
  split at hok
  · simp at hok
  · split at hok
    · rename_i hnone
      rw [hl] at hnone
      exact absurd hnone (by simp)
    · rename_i rloc' hsome
      rw [hl] at hsome
      have hrl : rloc' = rloc := by injection hsome with h; exact h.symm
      subst hrl
      split at hok
      · rename_i e₁ herr
        rw [hv] at herr
        exact absurd herr (by simp)
      · rename_i fileV' hokv
        rw [hv] at hokv
        have hfv : fileV' = fileV := by injection hokv with h; exact h.symm
        rw [hfv] at hok
        split at hok
        · simp at hok
        · rename_i text enc n0 hgst
          have henc : enc = "" := getSourceText_encoding s fileV text enc n0 hgst hnoenc
          subst henc
          split at hok
          · simp at hok
          · split at hok
            · split at hok
              · simp at hok
              · split at hok
                · split at hok
                  · simp at hok
                  · simp only at hok
                    injection hok with h
                    rw [← h]
                · simp only at hok
                  injection hok with h
                  rw [← h]
            · simp only at hok
              injection hok with h
              rw [← h]

/-- Counterexample for C6 as stated: a file with a `text` fact and no
`text/encoding` fact yields a reply whose encoding is `""`, not `"UTF-8"`. -/
theorem claim_C6_counterexample :
    ((Decorations c6store c6req).1.toOption.map DecorationsReply.encoding) = some "" ∧
    ((Decorations c6store c6req).1.toOption.map DecorationsReply.encoding) ≠
      some defaultTextEncoding :=
  ⟨by decide, by decide⟩

/-- Witness for the amended C6 at the concrete store. -/
theorem claim_C6_default_encoding_witness :
    (Decorations c6store c6req).1 = .ok c6reply ∧ c6reply.encoding = "" :=
  ⟨by decide,
   claim_C6_default_encoding c6store c6req ⟨"kythe://h6", .file, none, none⟩ "h6" c6reply
     rfl (by decide) rfl (by decide) (by decide)⟩

theorem Nodes_single_pos (s : Store) (v : String)
    (hpos : 0 < (nodeInfoFor s [] v).length) :
    Nodes s ⟨[vnameToTicket v], []⟩ =
      (.ok ⟨[(vnameToTicket v, ⟨nodeInfoFor s [] v⟩)]⟩, 1) := by
  have hp : parseTickets [vnameToTicket v] = .ok [v] := by
    simp [parseTickets, toVName_vnameToTicket]
  unfold Nodes
  rw [hp]
  simp [nodesStep, hpos, upsertA]

theorem processChild_file (s : Store) (text : String) (patterns : List String)
    (ls le : Int) (spanK : SpanKind) (c : EdgeTarget)
    (facts : List (String × String))
    (hfacts : nodeInfoFor s [] c.target = facts)
    (hkind : lookupA facts factNodeKind = some nodeKindAnchor)
    (aStart aEnd : Int)
    (hst : goAtoi ((lookupA facts factAnchorStart).getD "") = some aStart)
    (hen : goAtoi ((lookupA facts factAnchorEnd).getD "") = some aEnd)
    (targets : List EdgeTarget)
    (htg : getEdges s c.target
        (fun e => isForwardKind e.edgeKind && e.edgeKind ≠ edgeChildOf) = (targets, 1))
    (hne : targets ≠ []) :
    processChild s text patterns .file ls le spanK c =
      (.ok (some
        ((filterNode patterns ⟨facts⟩).map (fun fi => (vnameToTicket c.target, fi)),
         targets.map (fun t =>
           ({ sourceTicket := vnameToTicket c.target, kind := t.kind,
              targetTicket := vnameToTicket t.target,
              anchorStart := byteOffsetPoint text (wrapInt32 aStart),
              anchorEnd := byteOffsetPoint text (wrapInt32 aEnd) } : Reference)),
         targets.map (fun t => vnameToTicket t.target))),
       2) := by
  have hpos : 0 < (nodeInfoFor s [] c.target).length := by
    rw [hfacts]
    exact List.length_pos.mpr (List.ne_nil_of_mem (lookupA_mem hkind))
  have hnemp : targets.isEmpty = false := by
    cases targets with
    | nil => exact absurd rfl hne
    | cons a as => rfl
  simp only [processChild]
  rw [Nodes_single_pos s c.target hpos]
  simp only [hfacts, List.length_cons, List.length_nil, lookupA, if_pos rfl]
  rw [if_neg (by simp)]
  simp only [if_true]
  rw [if_neg (by rw [hkind]; simp)]
  simp only [hst, hen]
  rw [htg]
  simp [hnemp]

theorem childrenLoop_refs_mono (s : Store) (text : String) (patterns : List String)
    (lk : LocationKind) (ls le : Int) (spanK : SpanKind) :
    ∀ (cs : List EdgeTarget) (nm : List (String × NodeInfo)) (rf : List Reference)
      (ts : List String)
      (out : List (String × NodeInfo) × List Reference × List String) (n : Nat),
      childrenLoop s text patterns lk ls le spanK cs nm rf ts = (.ok out, n) →
      ∀ x ∈ rf, x ∈ out.2.1 := by
  intro cs
  induction cs with
  | nil =>
    intro nm rf ts out n h x hx
    simp only [childrenLoop, Prod.mk.injEq] at h
    obtain ⟨h1, _⟩ := h
    injection h1 with h1'
    subst h1'
    exact hx
  | cons c rest ih =>
    intro nm rf ts out n h x hx
    simp only [childrenLoop] at h
    cases hp : processChild s text patterns lk ls le spanK c with
    | _ pf pn =>
      rw [hp] at h
      cases pf with
      | error e => simp at h
      | ok oa =>
        cases oa with
        | none =>
          simp only [Prod.mk.injEq] at h
          obtain ⟨h1, _⟩ := h
          exact ih _ _ _ _ _ (by rw [← h1]) x hx
        | some trip =>
          obtain ⟨ne, refs, tgts⟩ := trip
          simp only [Prod.mk.injEq] at h
          obtain ⟨h1, _⟩ := h
          exact ih _ _ _ _ _ (by rw [← h1]) x (List.mem_append_left _ hx)

theorem childrenLoop_refs_mem (s : Store) (text : String) (patterns : List String)
    (lk : LocationKind) (ls le : Int) (spanK : SpanKind) :
    ∀ (cs : List EdgeTarget) (nm : List (String × NodeInfo)) (rf : List Reference)
      (ts : List String)
      (out : List (String × NodeInfo) × List Reference × List String) (n : Nat),
      childrenLoop s text patterns lk ls le spanK cs nm rf ts = (.ok out, n) →
      ∀ c ∈ cs,
        ∀ (ne : Option (String × NodeInfo)) (refs : List Reference) (tgts : List String)
          (n₁ : Nat),
          processChild s text patterns lk ls le spanK c = (.ok (some (ne, refs, tgts)), n₁) →
          ∀ x ∈ refs, x ∈ out.2.1 := by
  intro cs
  induction cs with
  | nil => intro nm rf ts out n h c hc; simp at hc
  | cons c₀ rest ih =>
    intro nm rf ts out n h c hc ne refs tgts n₁ hpc x hx
    rcases List.mem_cons.mp hc with hceq | hcr
    · subst hceq
      simp only [childrenLoop, hpc, Prod.mk.injEq] at h
      obtain ⟨h1, _⟩ := h
      exact childrenLoop_refs_mono s text patterns lk ls le spanK rest _ _ _ _ _
        (by rw [← h1]) x (List.mem_append_right _ hx)
    · simp only [childrenLoop] at h
      cases hp : processChild s text patterns lk ls le spanK c₀ with
      | _ pf pn =>
        rw [hp] at h
        cases pf with
        | error e => simp at h
        | ok oa =>
          cases oa with
          | none =>
            simp only [Prod.mk.injEq] at h
            obtain ⟨h1, _⟩ := h
            exact ih _ _ _ _ _ (by rw [← h1]) c hcr ne refs tgts n₁ hpc x hx
          | some trip =>
            obtain ⟨ne₀, refs₀, tgts₀⟩ := trip
            simp only [Prod.mk.injEq] at h
            obtain ⟨h1, _⟩ := h
            exact ih _ _ _ _ _ (by rw [← h1]) c hcr ne refs tgts n₁ hpc x hx

/-- C10: for a file-kind `Decorations` request, an anchor child whose
`loc/start` and `loc/end` facts parse under `strconv.Atoi` (including its
`int64` range failure, which skips the anchor) is never skipped for having
`start > end` or offsets beyond the end of the file: each of its forward
non-`childof` edges yields a reference whose points are the normalizer's
clamped byte offsets of the `int32`-converted values, exactly as
`norm.ByteOffset(int32(...))` computes them.  (The `start > end` and
span-window checks apply only to span-kind locations.) -/
theorem claim_C10_file_kind_no_skip (s : Store) (req : DecorationsRequest)
    (rloc : Location) (fileV text enc : String) (n0 : Nat) (reply : DecorationsReply)
    (hl : req.location = some rloc)
    (hk : rloc.kind = .file)
    (hv : toVName rloc.ticket = .ok fileV)
    (hgst : getSourceText s fileV = (.ok (text, enc), n0))
    (href : req.references = true)
    (hok : (Decorations s req).1 = .ok reply)
    (c : EdgeTarget)
    (hc : c ∈ (getEdges s fileV (fun e => e.edgeKind = revChildOfEdgeKind)).1)
    (facts : List (String × String))
    (hfacts : nodeInfoFor s [] c.target = facts)
    (hkind : lookupA facts factNodeKind = some nodeKindAnchor)
    (aStart aEnd : Int)
    (hst : goAtoi ((lookupA facts factAnchorStart).getD "") = some aStart)
    (hen : goAtoi ((lookupA facts factAnchorEnd).getD "") = some aEnd)
    (targets : List EdgeTarget)
    (htg : getEdges s c.target
        (fun e => isForwardKind e.edgeKind && e.edgeKind ≠ edgeChildOf) = (targets, 1))
    (hne : targets ≠ []) :
    ∀ t ∈ targets,
      ({ sourceTicket := vnameToTicket c.target, kind := t.kind,
         targetTicket := vnameToTicket t.target,
         anchorStart := byteOffsetPoint text (wrapInt32 aStart),
         anchorEnd := byteOffsetPoint text (wrapInt32 aEnd) } : Reference) ∈ reply.reference := by
  intro t ht
  have hnl' : normalizeLocation text rloc = .ok ⟨rloc.ticket, .file, none, none⟩ := by
    simp [normalizeLocation, hk]
  simp only [Decorations] at hok
  split at hok
  · simp at hok
  · rw [hl] at hok
    simp only at hok
    rw [hv] at hok
    simp only at hok
    rw [hgst] at hok
    simp only at hok
    rw [hnl'] at hok
    simp only at hok
    split at hok
    · simp at hok
    · rename_i nm refs ts m hcl
      have hpc := processChild_file s text req.filter
        (locStartByte ⟨rloc.ticket, .file, none, none⟩)
        (locEndByte ⟨rloc.ticket, .file, none, none⟩)
        req.spanKind c facts hfacts hkind aStart aEnd hst hen targets htg hne
      have hxrefs := childrenLoop_refs_mem s text req.filter _ _ _
        req.spanKind _ [] [] [] (nm, refs, ts) m hcl c hc _ _ _ 2 hpc
        ({ sourceTicket := vnameToTicket c.target, kind := t.kind,
           targetTicket := vnameToTicket t.target,
           anchorStart := byteOffsetPoint text (wrapInt32 aStart),
           anchorEnd := byteOffsetPoint text (wrapInt32 aEnd) } : Reference)
        (List.mem_map_of_mem _ ht)
      split at hok
      · split at hok
        · simp at hok
        · simp only at hok
          injection hok with h
          rw [← h]
          exact mem_sortBySpan.mpr hxrefs
      · simp only at hok
        injection hok with h
        rw [← h]
        exact mem_sortBySpan.mpr hxrefs

/-- Witness for C10: an anchor with `loc/start = 2147483652 > loc/end = 2`,
far past the end of the 3-byte file, still yields a reference; its start
point is the normalizer's clamp of the `int32`-wrapped offset (the wrap makes
it negative, so it clamps to the zero point), its end point the clamp of 2. -/
theorem claim_C10_file_kind_no_skip_witness :
    (Decorations c10store c10req).1 = .ok c10reply ∧
    ({ sourceTicket := "kythe://h#w", kind := "/kythe/edge/ref",
       targetTicket := "kythe://tt",
       anchorStart := byteOffsetPoint "xyz" (wrapInt32 2147483652),
       anchorEnd := byteOffsetPoint "xyz" (wrapInt32 2) } : Reference) ∈ c10reply.reference :=
  ⟨by decide,
   claim_C10_file_kind_no_skip c10store c10req ⟨"kythe://h", .file, none, none⟩ "h" "xyz" ""
     1 c10reply rfl rfl (by decide) (by decide) rfl (by decide)
     ⟨"%/kythe/edge/childof", "h#w", 0⟩ (by decide)
     [("/kythe/node/kind", "anchor"), ("/kythe/loc/start", "2147483652"),
      ("/kythe/loc/end", "2")]
     (by decide) (by decide) 2147483652 2 (by decide) (by decide)
     [⟨"/kythe/edge/ref", "tt", 0⟩] (by decide) (by decide)
     ⟨"/kythe/edge/ref", "tt", 0⟩ (by decide)⟩

theorem groupsLoop_rel_nil (s : Store) (req : CrossReferencesRequest) :
    ∀ (gs : List (String × EdgeGroup)) (xr : CrossReferenceSet) (files : FileCache)
      (count : Nat) (out : CrossReferenceSet × FileCache × List String × Nat) (n : Nat),
      groupsLoop s req gs xr files [] count = (.ok out, n) →
      out.2.2.1 = [] ∧ out.1.relatedNode = xr.relatedNode := by
  intro gs
  induction gs with
  | nil =>
    intro xr files count out n h
    simp only [groupsLoop, Prod.mk.injEq] at h
    obtain ⟨h1, _⟩ := h
    injection h1 with h1'
    subst h1'
    exact ⟨rfl, rfl⟩
  | cons kg rest ih =>
    intro xr files count out n h
    obtain ⟨kind, grp⟩ := kg
    simp only [groupsLoop, List.isEmpty_nil, Bool.not_true, Bool.false_and,
      Bool.false_eq_true, if_false] at h
    split at h
    · -- definition kind
      split at h
      · simp at h
      · rename_i x1 anchors files'' m hca
        simp only [Prod.mk.injEq] at h
        obtain ⟨h1, _⟩ := h
        have hrec := ih { xr with definition := xr.definition ++ anchors } files''
          (count + anchors.length) out _ (by rw [← h1])
        exact ⟨hrec.1, hrec.2⟩
    · split at h
      · -- reference kind
        split at h
        · simp at h
        · rename_i x1 anchors files'' m hca
          simp only [Prod.mk.injEq] at h
          obtain ⟨h1, _⟩ := h
          have hrec := ih { xr with reference := xr.reference ++ anchors } files''
            (count + anchors.length) out _ (by rw [← h1])
          exact ⟨hrec.1, hrec.2⟩
      · split at h
        · -- documentation kind
          split at h
          · simp at h
          · rename_i x1 anchors files'' m hca
            simp only [Prod.mk.injEq] at h
            obtain ⟨h1, _⟩ := h
            have hrec := ih { xr with documentation := xr.documentation ++ anchors } files''
              (count + anchors.length) out _ (by rw [← h1])
            exact ⟨hrec.1, hrec.2⟩
        · -- related-node branch unreachable with an empty set; plain recursion
          exact ih _ _ _ _ _ h

theorem sourcesLoop_inv (s : Store) (req : CrossReferencesRequest) :
    ∀ (es : List (String × EdgeSet)) (cr : List (String × CrossReferenceSet))
      (files : FileCache) (totalX : Nat)
      (out : List (String × CrossReferenceSet) × FileCache × List String × Nat) (n : Nat),
      (∀ p ∈ cr, p.2.relatedNode = []) →
      sourcesLoop s req es cr files [] totalX = (.ok out, n) →
      out.2.2.1 = [] ∧ ∀ p ∈ out.1, p.2.relatedNode = [] := by
  intro es
  induction es with
  | nil =>
    intro cr files totalX out n hcr h
    simp only [sourcesLoop, Prod.mk.injEq] at h
    obtain ⟨h1, _⟩ := h
    injection h1 with h1'
    subst h1'
    exact ⟨rfl, hcr⟩
  | cons se rest ih =>
    intro cr files totalX out n hcr h
    obtain ⟨source, es₀⟩ := se
    simp only [sourcesLoop] at h
    have hxr0 : ((lookupA cr source).getD ⟨source, [], [], [], []⟩).relatedNode = [] := by
      cases hl : lookupA cr source with
      | none => rfl
      | some xr => exact hcr _ (lookupA_mem hl)
    split at h
    · simp at h
    · rename_i xr files' rel' count n₁ hgl
      have hg := groupsLoop_rel_nil s req es₀.groups _ files 0 (xr, files', rel', count) n₁ hgl
      have hrel : rel' = [] := hg.1
      have hxr : xr.relatedNode = [] := by rw [hg.2]; exact hxr0
      subst hrel
      simp only [Prod.mk.injEq] at h
      obtain ⟨h1, _⟩ := h
      refine ih _ _ _ _ _ ?_ (by rw [← h1])
      intro p hp
      by_cases hcnt : count > 0
      · rw [if_pos hcnt] at hp
        rcases mem_upsertA hp with h' | h'
        · rw [h']; exact hxr
        · exact hcr _ h'
      · rw [if_neg hcnt] at hp
        exact hcr _ hp

/-- C9: `CrossReferences` never writes into the reply's `nil` nodes map: the
reply's nodes map is `nil` exactly when the filter list is empty, the
`RelatedNode` branch and the final related-node batch fetch are unreachable
(the `allRelatedNodes` set is only ever added to inside a branch that
requires it to already be non-empty), and the modelled nil-map-write panic
(`none`) never occurs. -/
theorem claim_C9_related_nodes_dead (s : Store) (req : CrossReferencesRequest) :
    (∀ reply, (CrossReferences s req).1 = some (.ok reply) →
       reply.nodes = (if req.filter.length > 0 then some [] else none) ∧
       ∀ p ∈ reply.crossReferences, p.2.relatedNode = []) ∧
    (CrossReferences s req).1 ≠ none := by
  constructor
  · intro reply hok
    simp only [CrossReferences] at hok
    split at hok
    · simp at hok
    · split at hok
      · simp at hok
      · rename_i eReply n hE
        split at hok
        · simp at hok
        · rename_i cr files rel totalX m hsl
          have hinv := sourcesLoop_inv s req eReply.edgeSets [] [] 0
            (cr, files, rel, totalX) m (by intro p hp; simp at hp) hsl
          have hrel : rel = [] := hinv.1
          subst hrel
          simp only [List.isEmpty_nil, if_true, Option.some.injEq, Except.ok.injEq] at hok
          rw [← hok]
          exact ⟨rfl, hinv.2⟩
  · intro habs
    simp only [CrossReferences] at habs
    split at habs
    · simp at habs
    · split at habs
      · simp at habs
      · rename_i eReply n hE
        split at habs
        · simp at habs
        · rename_i cr files rel totalX m hsl
          have hinv := sourcesLoop_inv s req eReply.edgeSets [] [] 0
            (cr, files, rel, totalX) m (by intro p hp; simp at hp) hsl
          have hrel : rel = [] := hinv.1
          subst hrel
          simp at habs

/-- Witness for C9 at the S5 scenario store and request. -/
theorem claim_C9_related_nodes_dead_witness :
    ((CrossReferences s5store s5req).1 = some (.ok c9reply)) ∧
    (c9reply.nodes = some [] ∧ ∀ p ∈ c9reply.crossReferences, p.2.relatedNode = []) ∧
    (CrossReferences s5store s5req).1 ≠ none := by
  refine ⟨by decide, ?_, (claim_C9_related_nodes_dead s5store s5req).2⟩
  have h := (claim_C9_related_nodes_dead s5store s5req).1 c9reply (by decide)
  exact ⟨by simpa using h.1, h.2⟩

/-- C1, evaluated at the S5 failing input: ticket `X` with edges
`defines/binding → A1`, `ref → A2`, `generates → Y` under
`definitionKind = BINDING`, `referenceKind = ALL`, default documentation
kind and a non-empty filter yields `A1` in definitions and `A2` in
references as the claim says, but `Y` never reaches `relatedNode` — the
branch emitting `RelatedNode` entries is dead code, contradicting the
claim (and the spec's intent). -/
theorem claim_C1_classification_eval :
    (c1xr.map (fun xr => xr.definition.map (fun a => a.anchor.ticket))
       = some ["kythe://f#a1"]) ∧
    (c1xr.map (fun xr => xr.reference.map (fun a => a.anchor.ticket))
       = some ["kythe://f#a2"]) ∧
    (c1xr.map (fun xr => xr.relatedNode) = some []) := by
  refine ⟨?_, ?_, ?_⟩ <;> decide


theorem charsStart_takeUntilHash :
    ∀ (p s : List Char), (∀ c ∈ p, c ≠ '#') → charsStart p s = true →
      charsStart p (takeUntilHash s) = true := by
  intro p
  induction p with
  | nil => intro s _ _; rfl
  | cons a ps ih =>
    intro s hnh h
    cases s with
    | nil => simp [charsStart] at h
    | cons c cs =>
      simp only [charsStart, Bool.and_eq_true, decide_eq_true_eq] at h
      obtain ⟨hac, hrest⟩ := h
      have hch : c ≠ '#' := by rw [← hac]; exact hnh a (by simp)
      simp only [takeUntilHash, if_neg hch]
      simp only [charsStart, Bool.and_eq_true, decide_eq_true_eq]
      exact ⟨hac, ih cs (fun c hc => hnh c (List.mem_cons_of_mem _ hc)) hrest⟩

theorem toVName_of_anchorFile {t parent : String} (h : anchorFile t = .ok parent) :
    ∃ v, toVName parent = .ok v := by
  unfold anchorFile at h
  split at h
  · rename_i hcs
    have hp : parent = String.mk (takeUntilHash t.data) := by
      injection h with h'; exact h'.symm
    have hcs' : charsStart ticketScheme.data (String.mk (takeUntilHash t.data)).data = true :=
      charsStart_takeUntilHash _ _ (by decide) hcs
    refine ⟨String.mk ((takeUntilHash t.data).drop 8), ?_⟩
    rw [hp]
    simp [toVName, hcs']
  · simp at h

theorem fetchFileNode_ok (s : Store) (parent : String)
    (hv : ∃ v, toVName parent = .ok v) :
    (fetchFileNode s parent).1 = .ok (fileNodeOf s parent) := by
  obtain ⟨v, hv⟩ := hv
  have hp : parseTickets [parent] = .ok [v] := by
    simp [parseTickets, hv]
  have hF : ∃ f, fetchFileNode s parent = (.ok f, 1) := by
    unfold fetchFileNode Nodes
    rw [hp]
    exact ⟨_, rfl⟩
  obtain ⟨f, hF⟩ := hF
  unfold fileNodeOf
  rw [hF]
  rfl

theorem normalizeSpan_zero {text : String} {o : Int} {st en : Point}
    (h : normalizeSpan text o o = some (st, en)) :
    en = st ∧ st.byteOffset = o := by
  simp only [normalizeSpan] at h
  split_ifs at h with h1
  simp only [Option.some.injEq, Prod.mk.injEq] at h
  obtain ⟨h3, h4⟩ := h
  refine ⟨?_, ?_⟩
  · rw [← h4]; exact h3
  · rw [← h3]; exact not_ne_iff.mp h1

theorem buildParents_lookup {parent : String} :
    ∀ {anchors : List String} {parents : List (String × String)} {t : String},
      buildParents anchors = .ok parents → t ∈ anchors → anchorFile t = .ok parent →
      lookupA parents t = some parent := by
  intro anchors
  induction anchors with
  | nil => intro parents t _ ht _; simp at ht
  | cons a rest ih =>
    intro parents t h ht hp
    simp only [buildParents] at h
    split at h
    · simp at h
    · rename_i f hf
      split at h
      · simp at h
      · rename_i ps hps
        have hpar : parents = (a, f) :: ps := by injection h with h'; exact h'.symm
        subst hpar
        by_cases hat : a = t
        · subst hat
          have hfp : f = parent := by rw [hf] at hp; injection hp
          simp [lookupA, hfp]
        · have ht' : t ∈ rest := by
            rcases List.mem_cons.mp ht with h' | h'
            · exact absurd h'.symm hat
            · exact h'
          simp only [lookupA, if_neg hat]
          exact ih hps ht' hp

theorem completeAnchorStep_preserves {s : Store} {rt : Bool} {ek : String}
    {parents : List (String × String)} {files : FileCache} {t : String} {info : NodeInfo}
    {files' : FileCache} {oa : Option Anchor} {n : Nat}
    (hcoh : ∀ p ∈ files, (fetchFileNode s p.1).1 = .ok p.2)
    (h : completeAnchorStep s rt ek parents files t info = (.ok (files', oa), n)) :
    ∀ p ∈ files', (fetchFileNode s p.1).1 = .ok p.2 := by
  simp only [completeAnchorStep] at h
  split at h
  · simp only [Prod.mk.injEq, Except.ok.injEq] at h
    obtain ⟨⟨h1, _⟩, _⟩ := h
    rw [← h1]; exact hcoh
  · split at h
    · simp at h
    · rename_i files₀ file n₀ heq1
      have hcoh₀ : ∀ p ∈ files₀, (fetchFileNode s p.1).1 = .ok p.2 := by
        split at heq1
        · simp only [Prod.mk.injEq, Except.ok.injEq] at heq1
          obtain ⟨⟨h1, _⟩, _⟩ := heq1
          rw [← h1]; exact hcoh
        · split at heq1
          · simp at heq1
          · rename_i f n₁ heqF
            simp only [Prod.mk.injEq, Except.ok.injEq] at heq1
            obtain ⟨⟨h1, h2⟩, _⟩ := heq1
            rw [← h1]
            intro p hp
            rcases mem_upsertA hp with he | he
            · rw [he]
              show (fetchFileNode s _).1 = .ok f
              rw [heqF]
            · exact hcoh p he
      split at h
      · simp only [Prod.mk.injEq, Except.ok.injEq] at h
        obtain ⟨⟨h1, _⟩, _⟩ := h
        rw [← h1]; exact hcoh₀
      · simp only [Prod.mk.injEq, Except.ok.injEq] at h
        obtain ⟨⟨h1, _⟩, _⟩ := h
        rw [← h1]; exact hcoh₀

theorem completeAnchorStep_zero_width (s : Store) (ek : String)
    (parents : List (String × String)) (t parent : String) (info : NodeInfo)
    (off : Int) (st en : Point)
    (hparent : lookupA parents t = some parent)
    (hfetch : (fetchFileNode s parent).1 = .ok (fileNodeOf s parent))
    (hspan : getSpan info.facts factAnchorStart factAnchorEnd = some (off, off))
    (hnosnip : getSpan info.facts factSnippetStart factSnippetEnd = none)
    (hnorm : normalizeSpan (fileNodeOf s parent).text (wrapInt32 off) (wrapInt32 off) =
      some (st, en))
    (fs : FileCache) (hcoh : ∀ p ∈ fs, (fetchFileNode s p.1).1 = .ok p.2) :
    ∃ fs' k, completeAnchorStep s true ek parents fs t info =
      (.ok (fs', some (zwAnchor s parent t ek st)), k) := by
  obtain ⟨hen, hbo⟩ := normalizeSpan_zero hnorm
  subst hen
  cases hl : lookupA fs parent with
  | some f =>
    have hf : f = fileNodeOf s parent := by
      have hc := hcoh _ (lookupA_mem hl)
      rw [hfetch] at hc
      injection hc with h'
      exact h'.symm
    subst hf
    refine ⟨fs, 0, ?_⟩
    simp only [completeAnchorStep, hspan, hparent, Option.getD_some, hl, hnorm]
    simp only [zwAnchor, anchorSnippet, hnosnip]
    simp
  | none =>
    cases hfe : fetchFileNode s parent with
    | mk e1 n1 =>
      have he1 : e1 = .ok (fileNodeOf s parent) := by
        rw [hfe] at hfetch
        exact hfetch
      subst he1
      refine ⟨upsertA fs parent (fileNodeOf s parent), n1, ?_⟩
      simp only [completeAnchorStep, hspan, hparent, Option.getD_some, hl, hfe, hnorm]
      simp only [zwAnchor, anchorSnippet, hnosnip]
      simp

theorem completeAnchorsLoop_mem {s : Store} {rt : Bool} {ek : String}
    {parents : List (String × String)} {a : Anchor} :
    ∀ {nl : List (String × NodeInfo)} {files : FileCache}
      {out : List RelatedAnchor × FileCache} {n : Nat},
      (∀ p ∈ files, (fetchFileNode s p.1).1 = .ok p.2) →
      completeAnchorsLoop s rt ek parents nl files = (.ok out, n) →
      ∀ {t : String} {info : NodeInfo}, (t, info) ∈ nl →
      (∀ fs : FileCache, (∀ p ∈ fs, (fetchFileNode s p.1).1 = .ok p.2) →
        ∃ fs' k, completeAnchorStep s rt ek parents fs t info = (.ok (fs', some a), k)) →
      (⟨a⟩ : RelatedAnchor) ∈ out.1 := by
  intro nl
  induction nl with
  | nil =>
    intro files out n _ _ t info hmem _
    simp at hmem
  | cons q rest ih =>
    intro files out n hcoh h t info hmem hstep
    obtain ⟨t₀, i₀⟩ := q
    simp only [completeAnchorsLoop] at h
    split at h
    · simp at h
    · rename_i files₀ oa n₀ hs
      have hcoh₀ : ∀ p ∈ files₀, (fetchFileNode s p.1).1 = .ok p.2 :=
        completeAnchorStep_preserves hcoh hs
      split at h
      · simp at h
      · rename_i as files₁ m hr
        simp only [Prod.mk.injEq, Except.ok.injEq] at h
        obtain ⟨h1, _⟩ := h
        rw [← h1]
        rcases List.mem_cons.mp hmem with hq | hq
        · injection hq with hqt hqi
          subst hqt
          subst hqi
          obtain ⟨fs', k, hstep'⟩ := hstep files hcoh
          rw [hs] at hstep'
          simp only [Prod.mk.injEq, Except.ok.injEq] at hstep'
          obtain ⟨⟨_, hoa⟩, _⟩ := hstep'
          subst hoa
          simp
        · exact List.mem_append_right _ (ih hcoh₀ hr hq hstep)

/-- C8 (amended): in anchor completion with anchor text requested, an anchor
whose `loc/start` fact equals its `loc/end` fact and that carries no
`snippet/start` / `snippet/end` facts comes back with empty anchor text but
with the line-based snippet still populated — the decoded bytes from the
start of the anchor's line (`st.byteOffset - st.columnOffset`) to the byte
before the next line start (`pointOfLineCol text (line+1) 0 - 1`) —
PROVIDED that snippet slice is not inverted, i.e. the anchor does not sit on
the file's trailing empty line.  On that excluded corner the original claim
fails: the next line start clamps to end of file, the fallback slice is
`text[len : len-1]`, and Go's slice expression panics
(`claim_C8_counterexample` exhibits it).  The in-bounds hypothesis `hinb`
states exactly the non-inverted-slice proviso, under which the model's total
`strSlice` agrees with Go's slicing. -/
theorem claim_C8_zero_width_anchor (s : Store) (files : FileCache)
    (edgeKind : String) (anchors : List String)
    (ras : List RelatedAnchor) (files' : FileCache) (n : Nat)
    (t v parent : String) (facts : List (String × String)) (off : Int) (st en : Point)
    (hcoh : ∀ p ∈ files, (fetchFileNode s p.1).1 = .ok p.2)
    (hrun : completeAnchors s true files edgeKind anchors = (.ok (ras, files'), n))
    (ht : t ∈ anchors) (hv : toVName t = .ok v)
    (hpf : anchorFile t = .ok parent)
    (hfacts : nodeInfoFor s [anchorLocFilter, snippetLocFilter] v = facts)
    (hspan : getSpan facts factAnchorStart factAnchorEnd = some (off, off))
    (hnosnip : getSpan facts factSnippetStart factSnippetEnd = none)
    (hnorm : normalizeSpan (fileNodeOf s parent).text (wrapInt32 off) (wrapInt32 off) =
      some (st, en))
    (hinb : 0 ≤ st.byteOffset - st.columnOffset ∧
      st.byteOffset - st.columnOffset ≤
        (pointOfLineCol (fileNodeOf s parent).text (st.lineNumber + 1) 0).byteOffset - 1 ∧
      (pointOfLineCol (fileNodeOf s parent).text (st.lineNumber + 1) 0).byteOffset - 1 ≤
        textLenI (fileNodeOf s parent).text) :
    ∃ ra ∈ ras, ra.anchor.ticket = t ∧ ra.anchor.text = "" ∧
      ra.anchor.snippet = textToUTF8 (fileNodeOf s parent).encoding
        (strSlice (fileNodeOf s parent).text (st.byteOffset - st.columnOffset)
          ((pointOfLineCol (fileNodeOf s parent).text (st.lineNumber + 1) 0).byteOffset - 1)) := by
  simp only [completeAnchors] at hrun
  split at hrun
  · simp at hrun
  · rename_i parents hbp
    split at hrun
    · simp at hrun
    · rename_i r n₀ hN
      simp only [Prod.mk.injEq] at hrun
      obtain ⟨h1, _⟩ := hrun
      have hfne : facts ≠ [] := by
        intro he
        rw [he] at hspan
        simp [getSpan, lookupA] at hspan
      have hN1 : (Nodes s ⟨anchors, [anchorLocFilter, snippetLocFilter]⟩).1 = .ok r := by
        rw [hN]
      have hlk := Nodes_lookup s ⟨anchors, [anchorLocFilter, snippetLocFilter]⟩ r hN1 t v ht hv
      rw [hfacts] at hlk
      have hpos : 0 < facts.length := by
        cases hc : facts with
        | nil => exact absurd hc hfne
        | cons q qs => simp [hc]
      rw [if_pos hpos] at hlk
      have hmem : (t, (⟨facts⟩ : NodeInfo)) ∈ r.nodes := lookupA_mem hlk
      have hlp : lookupA parents t = some parent := buildParents_lookup hbp ht hpf
      have hfetch : (fetchFileNode s parent).1 = .ok (fileNodeOf s parent) :=
        fetchFileNode_ok s parent (toVName_of_anchorFile hpf)
      have hstep : ∀ fs : FileCache, (∀ p ∈ fs, (fetchFileNode s p.1).1 = .ok p.2) →
          ∃ fs' k, completeAnchorStep s true (canonicalKind edgeKind) parents fs t ⟨facts⟩ =
            (.ok (fs', some (zwAnchor s parent t (canonicalKind edgeKind) st)), k) :=
        fun fs hc => completeAnchorStep_zero_width s (canonicalKind edgeKind) parents t parent
          ⟨facts⟩ off st en hlp hfetch hspan hnosnip hnorm fs hc
      have heq : completeAnchorsLoop s true (canonicalKind edgeKind) parents r.nodes files =
          (.ok (ras, files'),
           (completeAnchorsLoop s true (canonicalKind edgeKind) parents r.nodes files).2) := by
        rw [← h1]
      have hloop := completeAnchorsLoop_mem hcoh heq hmem hstep
      exact ⟨⟨zwAnchor s parent t (canonicalKind edgeKind) st⟩, hloop, rfl, rfl, rfl⟩

/-- C8 witness: the zero-width anchor `kythe://w#z` at offset 7 of the file
`hello\nworld\n` (line 2, column 1) completes with empty anchor text and
snippet `world` (bytes 6 to 11). -/
theorem claim_C8_zero_width_anchor_witness :
    ∃ ra ∈ [({ anchor :=
        { ticket := "kythe://w#z", kind := "/kythe/edge/ref", parent := "kythe://w",
          start := some ⟨7, 2, 1⟩, stop := some ⟨7, 2, 1⟩, text := "",
          snippet := "world", snippetStart := some ⟨6, 2, 0⟩,
          snippetEnd := some ⟨11, 2, 5⟩ } } : RelatedAnchor)],
      ra.anchor.ticket = "kythe://w#z" ∧ ra.anchor.text = "" ∧
      ra.anchor.snippet = textToUTF8 (fileNodeOf c8store "kythe://w").encoding
        (strSlice (fileNodeOf c8store "kythe://w").text
          ((⟨7, 2, 1⟩ : Point).byteOffset - (⟨7, 2, 1⟩ : Point).columnOffset)
          ((pointOfLineCol (fileNodeOf c8store "kythe://w").text
              ((⟨7, 2, 1⟩ : Point).lineNumber + 1) 0).byteOffset - 1)) :=
  claim_C8_zero_width_anchor c8store [] "/kythe/edge/ref" ["kythe://w#z"]
    [{ anchor :=
        { ticket := "kythe://w#z", kind := "/kythe/edge/ref", parent := "kythe://w",
          start := some ⟨7, 2, 1⟩, stop := some ⟨7, 2, 1⟩, text := "",
          snippet := "world", snippetStart := some ⟨6, 2, 0⟩,
          snippetEnd := some ⟨11, 2, 5⟩ } }]
    [("kythe://w", ⟨"hello\nworld\n", ""⟩)] 2
    "kythe://w#z" "w#z" "kythe://w"
    [("/kythe/loc/start", "7"), ("/kythe/loc/end", "7")] 7 ⟨7, 2, 1⟩ ⟨7, 2, 1⟩
    (by simp) (by decide) (by decide) (by decide) (by decide) (by decide)
    (by decide) (by decide) (by decide) (by decide)

/-- C8 counterexample, refuting the original universal claim: the zero-width
anchor of `c8estore` sits on the file's trailing empty line
(`loc/start = loc/end = 12` in the 12-byte file `hello\nworld\n`) and
satisfies every premise of the claim — anchor text requested, equal span
facts, no snippet facts — and it does get empty anchor text, but its snippet
is NOT populated: the anchor's line starts at byte 12 while the next line
start clamps to end of file, so the fallback span is inverted (snippet start
byte 12, snippet end byte 11) and the slice is empty here — in Go,
`file.text[12:11]` panics with a slice-bounds error. -/
theorem claim_C8_counterexample :
    (completeAnchors c8estore true [] "/kythe/edge/ref" ["kythe://w#z"]).1.map
        (fun p => p.1.map (fun ra =>
          (ra.anchor.text, ra.anchor.snippet,
           ra.anchor.snippetStart, ra.anchor.snippetEnd))) =
      .ok [("", "", some (⟨12, 3, 0⟩ : Point), some (⟨11, 3, -1⟩ : Point))] := by
  decide

/-- The model's `strconv.Atoi` range behavior, at the `int64` boundary: the
largest `int64` still parses, one past it fails with `ErrRange` (so the
source logs a parse error and skips such an anchor). -/
theorem goAtoi_int64_range :
    goAtoi "9223372036854775807" = some 9223372036854775807 ∧
    goAtoi "9223372036854775808" = none := by
  exact ⟨by decide, by decide⟩

end KytheXrefs
